import Mathlib

/-!
# A verification model of `prettytable` (src/src/prettytable/prettytable.py)

This file shallowly embeds the parts of the `PrettyTable` class that the
claims under scrutiny depend on: the row/column store and its mutating
operations, the preset-style logic, row selection (filter / sort / slice),
column-width computation (including the table-level shrink and grow
rescaling), and the plain-text grid renderer (`get_string` and its
`_stringify_*` helpers).

Modelling conventions, used throughout:

* Python strings are Lean `String`s; all slicing in the source is by code
  point, which matches Lean's character-based `String.take`/`drop`.
* Cell values (Python `Any`) are modelled by the inductive `Val` covering
  the string and integer values the library's formatter distinguishes
  (`float` values and their `%f` formatting do not translate to the
  embedding and no claim exercises them; the `isinstance(value, float)`
  branch of `_format_value` is therefore not modelled).
* Python dicts keyed by field name are association lists
  (`List (String × β)`) with last-write-wins update (`alSet`).
* The scaling arithmetic of `_compute_widths` is performed by the source
  with IEEE doubles (`scale = a / b` followed by `int(w * scale)`); the
  embedding computes the same expression in exact arithmetic, i.e.
  `int(w * (a / b))` becomes `w * a / b` on `Nat` (truncation of a
  non-negative exact ratio) and the negative-scale case (`a ≤ 0`, where
  `int` truncates toward zero and the subsequent `max(1, ·)` yields `1`)
  is folded into the branch on `a = 0` after `Nat` subtraction.
  All concrete inputs used below were chosen so that the double-precision
  evaluation agrees with the exact one.
* A method that mutates `self` and may `raise` is a function
  `Table κ → args → Table κ × Option String`: the returned table is the
  state at the point of the raise (the source validates before mutating,
  which the order of operations below mirrors), and the `Option String`
  carries the error message, `none` on success.
* `random.choice`/`random.randint` draws of `_set_random_style` are passed
  in explicitly as a `RandomDraws` record.
-/

namespace Prettytable

/-! ## Enumerations (`HRuleStyle`, `VRuleStyle`, `TableStyle`, literal types) -/

inductive HRuleStyle where
  | FRAME | ALL | NONE | HEADER
deriving DecidableEq, Repr

inductive VRuleStyle where
  | FRAME | ALL | NONE
deriving DecidableEq, Repr

inductive TableStyle where
  | DEFAULT | MSWORD_FRIENDLY | PLAIN_COLUMNS | MARKDOWN | ORGMODE
  | DOUBLE_BORDER | SINGLE_BORDER | RANDOM
deriving DecidableEq, Repr

/-- `AlignType = Literal["l", "c", "r"]` -/
inductive Align where
  | l | c | r
deriving DecidableEq, Repr

/-- `VAlignType = Literal["t", "m", "b"]` -/
inductive VAlign where
  | t | m | b
deriving DecidableEq, Repr

/-- `HeaderStyleType = Literal["cap", "title", "upper", "lower", None]`;
`none` is represented by `Option HeaderStyle`. -/
inductive HeaderStyle where
  | cap | title | upper | lower
deriving DecidableEq, Repr

/-- Cell values: the string and integer cases of Python `Any` that
`_format_value` distinguishes. -/
inductive Val where
  | s (str : String)
  | n (int : Int)
deriving DecidableEq, Repr

/-! ## Text measurement unit

`_str_block_width` in the source strips ANSI SGR and OSC-8 hyperlink
escape sequences and then calls `wcwidth.wcswidth`. `wcwidth` is an
external library (not part of this repository), so the measurement is
modelled from the spec (§4.1): each code point contributes 0 (controls,
combining marks, zero-width characters), 2 (East-Asian wide/fullwidth,
common emoji) or 1 display column. The escape-stripping pre-passes are
not modelled: no input in this development contains `ESC` (U+001B). -/

/-- Modelled from the spec: per-code-point display width
(`wcwidth`-style; the library itself is external to the repository). -/
def charBlockWidth (ch : Char) : Nat :=
  let u := ch.toNat
  if u < 32 ∨ u = 127 then 0
  else if (0x0300 ≤ u ∧ u ≤ 0x036F) ∨ (0x200B ≤ u ∧ u ≤ 0x200F) ∨ u = 0xFE0F then 0
  else if (0x1100 ≤ u ∧ u ≤ 0x115F) ∨ (0x2E80 ≤ u ∧ u ≤ 0x303E)
      ∨ (0x3041 ≤ u ∧ u ≤ 0x33FF) ∨ (0x3400 ≤ u ∧ u ≤ 0x4DBF)
      ∨ (0x4E00 ≤ u ∧ u ≤ 0x9FFF) ∨ (0xAC00 ≤ u ∧ u ≤ 0xD7A3)
      ∨ (0xF900 ≤ u ∧ u ≤ 0xFAFF) ∨ (0xFF00 ≤ u ∧ u ≤ 0xFF60)
      ∨ (0xFFE0 ≤ u ∧ u ≤ 0xFFE6) ∨ (0x1F300 ≤ u ∧ u ≤ 0x1F64F) then 2
  else 1

/-- `_str_block_width(val)`: display width of a single physical line. -/
def _str_block_width (val : String) : Nat :=
  (val.data.map charBlockWidth).sum

/-- Structural split of a character list at a separator character. -/
def splitChar (c : Char) : List Char → List (List Char)
  | [] => [[]]
  | x :: rest =>
    match splitChar c rest with
    | [] => if x = c then [[], []] else [[x]]
    | r :: rs => if x = c then [] :: r :: rs else (x :: r) :: rs

/-- `s.split(sep)` for a one-character separator (structural, so that the
kernel can evaluate renders; `String.splitOn` recurses on positions). -/
def strSplit (c : Char) (s : String) : List String :=
  (splitChar c s.data).map String.mk

/-- `sep.join(parts)` / `String.intercalate` (structural). -/
def strJoin (sep : String) : List String → String
  | [] => ""
  | [x] => x
  | x :: xs => x ++ sep ++ strJoin sep xs

/-- `s[:n]` (by code point, structural). -/
def strTake (s : String) (n : Nat) : String :=
  String.mk (s.data.take n)

/-- `s[n:]` (by code point, structural). -/
def strDrop (s : String) (n : Nat) : String :=
  String.mk (s.data.drop n)

/-- `s[:-n]` (by code point, structural). -/
def strDropRight (s : String) (n : Nat) : String :=
  String.mk (s.data.take (s.data.length - n))

/-- `_get_size(text)`: `(max line width, number of lines)`. -/
def _get_size (text : String) : Nat × Nat :=
  let lines := strSplit '\n' text
  ((lines.map _str_block_width).foldr max 0, lines.length)

/-! ## Small Python-semantics helpers -/

/-- Python `n * " "` (a non-positive count yields the empty string). -/
def pyMulSpace (n : Int) : String :=
  String.mk (List.replicate n.toNat ' ')

/-- Python list slice `xs[start:end]` with non-negative bounds
(`start` and `end` are validated non-negative by `_validate_option`). -/
def pySlice (xs : List α) (start : Nat) (stop : Option Nat) : List α :=
  match stop with
  | none => xs.drop start
  | some e => (xs.take e).drop start

/-- Association-list read, `d.get(k)` / `d[k]`-style. -/
def alGet (m : List (String × β)) (k : String) : Option β :=
  m.lookup k

/-- `d[k] = v`: overwrite in place if the key exists, else append. -/
def alSet (m : List (String × β)) (k : String) (v : β) : List (String × β) :=
  if (m.lookup k).isSome then
    m.map (fun p => if p.1 = k then (k, v) else p)
  else
    m ++ [(k, v)]

/-- `d.pop(k)` when the key may be absent (the source only reaches its
`pop` calls under guards; an absent key is a no-op here). -/
def alPop (m : List (String × β)) (k : String) : List (String × β) :=
  m.filter (fun p => p.1 ≠ k)

/-! ## `_justify` -/

/-- `PrettyTable._justify(text, width, align)` (source lines 459–478).
`excess` is computed in `Int` because Python's `excess // 2` and
`excess % 2` act on a possibly negative difference; `Int` `/` and `%`
(Euclidean for the positive divisor 2) match Python's floor-division semantics for the positive divisor 2. -/
def _justify (text : String) (width : Nat) (align : Align) : String :=
  let excess : Int := (width : Int) - (_str_block_width text : Int)
  match align with
  | .l => text ++ pyMulSpace excess
  | .r => pyMulSpace excess ++ text
  | .c =>
    if excess % 2 = 1 then
      if _str_block_width text % 2 = 1 then
        pyMulSpace (excess / 2) ++ text ++ pyMulSpace (excess / 2 + 1)
      else
        pyMulSpace (excess / 2 + 1) ++ text ++ pyMulSpace (excess / 2)
    else
      pyMulSpace (excess / 2) ++ text ++ pyMulSpace (excess / 2)

/-- Normal form of the center branch of `_justify` when the text fits:
the `Int` floor-division/modulus collapse to `Nat` operations. -/
theorem justify_c_eq (text : String) (width : Nat)
    (h : _str_block_width text ≤ width) :
    _justify text width .c =
      if (width - _str_block_width text) % 2 = 1 then
        if _str_block_width text % 2 = 1 then
          String.mk (List.replicate ((width - _str_block_width text) / 2) ' ') ++ text ++
            String.mk (List.replicate ((width - _str_block_width text) / 2 + 1) ' ')
        else
          String.mk (List.replicate ((width - _str_block_width text) / 2 + 1) ' ') ++ text ++
            String.mk (List.replicate ((width - _str_block_width text) / 2) ' ')
      else
        String.mk (List.replicate ((width - _str_block_width text) / 2) ' ') ++ text ++
          String.mk (List.replicate ((width - _str_block_width text) / 2) ' ') := by
  have hcast : (width : Int) - (_str_block_width text : Int) =
      ((width - _str_block_width text : Nat) : Int) := by omega
  have hmod : ((width - _str_block_width text : Nat) : Int) % 2 = 1 ↔
      (width - _str_block_width text) % 2 = 1 := by omega
  have hdiv : (((width - _str_block_width text : Nat) : Int) / 2).toNat =
      (width - _str_block_width text) / 2 := by omega
  have hdiv1 : (((width - _str_block_width text : Nat) : Int) / 2 + 1).toNat =
      (width - _str_block_width text) / 2 + 1 := by omega
  simp only [_justify, pyMulSpace, hcast]
  by_cases h1 : (width - _str_block_width text) % 2 = 1
  · rw [if_pos (hmod.mpr h1), if_pos h1]
    by_cases h2 : _str_block_width text % 2 = 1
    · rw [if_pos h2, if_pos h2, hdiv, hdiv1]
    · rw [if_neg h2, if_neg h2, hdiv, hdiv1]
  · rw [if_neg (fun hc => h1 (hmod.mp hc)), if_neg h1, hdiv]

/-- C6: for every text and width with positive excess, `_justify · · c`
splits the excess so that for odd excess, text of odd display width gets
the extra space on the right and text of even display width gets it on
the left; for even excess the two sides are equal; and concretely
`justify("x", 4, "c") = " x  "` and `justify("ab", 5, "c") = "  ab "`. -/
theorem C6_justify_center (text : String) (width : Nat)
    (h : _str_block_width text < width) :
    (∃ lp rp : Nat,
      _justify text width .c =
        String.mk (List.replicate lp ' ') ++ text ++ String.mk (List.replicate rp ' ') ∧
      lp + rp = width - _str_block_width text ∧
      ((width - _str_block_width text) % 2 = 1 →
        (_str_block_width text % 2 = 1 → rp = lp + 1) ∧
        (_str_block_width text % 2 = 0 → lp = rp + 1)) ∧
      ((width - _str_block_width text) % 2 = 0 → lp = rp)) ∧
    _justify "x" 4 .c = " x  " ∧ _justify "ab" 5 .c = "  ab " := by
  refine ⟨?_, by decide, by decide⟩
  rw [justify_c_eq text width h.le]
  by_cases h1 : (width - _str_block_width text) % 2 = 1
  · by_cases h2 : _str_block_width text % 2 = 1
    · exact ⟨(width - _str_block_width text) / 2, (width - _str_block_width text) / 2 + 1,
        by rw [if_pos h1, if_pos h2], by omega, fun _ => ⟨fun _ => rfl, fun he => by omega⟩,
        fun he => by omega⟩
    · exact ⟨(width - _str_block_width text) / 2 + 1, (width - _str_block_width text) / 2,
        by rw [if_pos h1, if_neg h2], by omega, fun _ => ⟨fun ho => by omega, fun _ => rfl⟩,
        fun he => by omega⟩
  · exact ⟨(width - _str_block_width text) / 2, (width - _str_block_width text) / 2,
      by rw [if_neg h1], by omega, fun hc => absurd hc h1, fun _ => rfl⟩

/-- Witness for `C6_justify_center` at `text = "x"`, `width = 4`. -/
theorem C6_justify_center_witness :
    _str_block_width "x" < 4 ∧
    ((∃ lp rp : Nat,
      _justify "x" 4 .c =
        String.mk (List.replicate lp ' ') ++ "x" ++ String.mk (List.replicate rp ' ') ∧
      lp + rp = 4 - _str_block_width "x" ∧
      ((4 - _str_block_width "x") % 2 = 1 →
        (_str_block_width "x" % 2 = 1 → rp = lp + 1) ∧
        (_str_block_width "x" % 2 = 0 → lp = rp + 1)) ∧
      ((4 - _str_block_width "x") % 2 = 0 → lp = rp)) ∧
    _justify "x" 4 .c = " x  " ∧ _justify "ab" 5 .c = "  ab ") :=
  ⟨by decide, C6_justify_center "x" 4 (by decide)⟩

/-! ## Python value semantics: `str()`, `==`, `<` -/

/-- Python `str(value)` for the modelled value kinds. -/
def pyStr : Val → String
  | .s a => a
  | .n i => toString i

/-- Python `==` on modelled values (`str`/`int` cross-comparisons are unequal). -/
def pyValEq : Val → Val → Bool
  | .s a, .s b => a == b
  | .n a, .n b => a == b
  | _, _ => false

/-- Lexicographic-by-code-point comparison of character lists: Python's
`str` `<` (structural, so that the kernel can evaluate sorts). -/
def charListLt : List Char → List Char → Bool
  | [], [] => false
  | [], _ :: _ => true
  | _ :: _, [] => false
  | a :: as, b :: bs =>
    if a.toNat < b.toNat then true
    else if b.toNat < a.toNat then false
    else charListLt as bs

/-- Python `<` on modelled values. A `str`/`int` cross-comparison raises
`TypeError` in Python; it is rendered `false` here and never exercised:
every comparison in this development is homogeneous. -/
def pyValLt : Val → Val → Bool
  | .s a, .s b => charListLt a.data b.data
  | .n a, .n b => decide (a < b)
  | _, _ => false

/-- Python `<` on lists of values (lexicographic; a strict prefix is smaller). -/
def pyListValLt : List Val → List Val → Bool
  | [], [] => false
  | [], _ :: _ => true
  | _ :: _, [] => false
  | x :: xs, y :: ys => if pyValEq x y then pyListValLt xs ys else pyValLt x y

/-- `BASE_ALIGN_VALUE = "base_align_value"` -/
def BASE_ALIGN_VALUE : String := "base_align_value"

/-! ## The row/column store: `PrettyTable` state

`κ` is the result type of the sort-key function (`SupportsRichComparison`
in the source); `klt` is Python's `<` on such results. Fields keep the
source's names; the `_kwargs` dict is reduced to the two entries
(`align`, `valign`) that `add_autoindex`/`_column_specific_args` read.
The transient `_widths`/`_hrule` attributes are not part of the store:
the rendering functions below pass them explicitly. -/

structure Table (κ : Type) where
  field_names : List String := []
  rows : List (List Val) := []
  dividers : List Bool := []
  align : List (String × Align) := [(BASE_ALIGN_VALUE, Align.c)]
  valign : List (String × VAlign) := []
  min_width : List (String × Nat) := []
  max_width : List (String × Nat) := []
  int_format : List (String × String) := []
  float_format : List (String × String) := []
  custom_format : List (String × (String → Val → String)) := []
  none_format : List (String × Option String) := []
  title : Option String := none
  start : Nat := 0
  «end» : Option Nat := none
  fields : Option (List String) := none
  header : Bool := true
  use_header_width : Bool := true
  header_style : Option HeaderStyle := none
  border : Bool := true
  preserve_internal_border : Bool := false
  hrules : HRuleStyle := .FRAME
  vrules : VRuleStyle := .ALL
  sortby : Option String := none
  reversesort : Bool := false
  sort_key : List Val → κ
  row_filter : List Val → Bool := fun _ => true
  min_table_width : Option Nat := none
  max_table_width : Option Nat := none
  padding_width : Nat := 1
  left_padding_width : Option Nat := none
  right_padding_width : Option Nat := none
  vertical_char : Char := '|'
  horizontal_char : Char := '-'
  horizontal_align_char : Option Char := none
  junction_char : Char := '+'
  top_junction_char : Option Char := none
  bottom_junction_char : Option Char := none
  right_junction_char : Option Char := none
  left_junction_char : Option Char := none
  top_right_junction_char : Option Char := none
  top_left_junction_char : Option Char := none
  bottom_right_junction_char : Option Char := none
  bottom_left_junction_char : Option Char := none
  print_empty : Bool := true
  oldsortslice : Bool := false
  break_on_hyphens : Bool := true
  style : Option TableStyle := none
  orgmode : Bool := false
  kwargs_align : Option Align := none
  kwargs_valign : Option VAlign := none
  klt : κ → κ → Bool

variable {κ : Type}

/-- Python truthiness of an optional non-negative integer
(`None` and `0` are falsy). -/
def truthyNat : Option Nat → Bool
  | some v => v ≠ 0
  | none => false

/-- Python truthiness of an optional string (`None` and `""` are falsy). -/
def truthyStr : Option String → Bool
  | some v => v ≠ ""
  | none => false

/-! ### Per-column property setters

Each models the corresponding `@x.setter`. The callers in this
development only pass `None`/`{}` (both falsy) or a single valid literal,
so the dict-valued forms of these polymorphic setters are not modelled,
and the validators (which accept every value of the Lean argument types)
are omitted. -/

/-- `align` setter (source lines 840–855). -/
def set_align (t : Table κ) (val : Option Align) : Table κ :=
  match val with
  | some a =>
    if t.field_names = [] then {t with align := [(BASE_ALIGN_VALUE, a)]}
    else {t with align := t.field_names.foldl (fun m f => alSet m f a) t.align}
  | none =>
    if t.field_names = [] then {t with align := [(BASE_ALIGN_VALUE, Align.c)]}
    else {t with align := t.field_names.foldl (fun m f => alSet m f Align.c) t.align}

/-- `valign` setter (source lines 865–876). -/
def set_valign (t : Table κ) (val : Option VAlign) : Table κ :=
  if t.field_names = [] then {t with valign := []}
  else
    match val with
    | some v => {t with valign := t.field_names.foldl (fun m f => alSet m f v) t.valign}
    | none => {t with valign := t.field_names.foldl (fun m f => alSet m f VAlign.t) t.valign}

/-- `max_width` setter (source lines 886–894). -/
def set_max_width (t : Table κ) (val : Option Nat) : Table κ :=
  if truthyNat val then
    {t with max_width := t.field_names.foldl (fun m f => alSet m f (val.getD 0)) t.max_width}
  else {t with max_width := []}

/-- `min_width` setter (source lines 904–912). -/
def set_min_width (t : Table κ) (val : Option Nat) : Table κ :=
  if truthyNat val then
    {t with min_width := t.field_names.foldl (fun m f => alSet m f (val.getD 0)) t.min_width}
  else {t with min_width := []}

/-- `int_format` setter (source lines 1151–1159). -/
def set_int_format (t : Table κ) (val : Option String) : Table κ :=
  if truthyStr val then
    {t with int_format := t.field_names.foldl (fun m f => alSet m f (val.getD "")) t.int_format}
  else {t with int_format := []}

/-- `float_format` setter (source lines 1169–1177). -/
def set_float_format (t : Table κ) (val : Option String) : Table κ :=
  if truthyStr val then
    {t with float_format := t.field_names.foldl (fun m f => alSet m f (val.getD "")) t.float_format}
  else {t with float_format := []}

/-- `custom_format` setter (source lines 1187–1204), `None`/callable cases. -/
def set_custom_format (t : Table κ) (val : Option (String → Val → String)) : Table κ :=
  match val with
  | none => {t with custom_format := []}
  | some f => {t with custom_format := t.field_names.foldl (fun m g => alSet m g f) t.custom_format}

/-- `none_format` setter (source lines 777–790). Note that the falsy
branch stores an explicit `None` entry for every field. -/
def set_none_format (t : Table κ) (val : Option String) : Table κ :=
  if t.field_names = [] then {t with none_format := []}
  else if truthyStr val then
    {t with none_format := t.field_names.foldl (fun m f => alSet m f val) t.none_format}
  else
    {t with none_format := t.field_names.foldl (fun m f => alSet m f none) t.none_format}

/-- `_column_specific_args` (source lines 443–457): re-applies the
column-specific constructor kwargs through the property setters. Only
`align`/`valign` kwargs are modelled (the others are never passed in
this development, so their setters receive the falsy `{}`). -/
def _column_specific_args (t : Table κ) : Table κ :=
  let t := set_align t t.kwargs_align
  let t := set_valign t t.kwargs_valign
  let t := set_max_width t none
  let t := set_min_width t none
  let t := set_int_format t none
  let t := set_float_format t none
  let t := set_custom_format t none
  set_none_format t none

/-- `field_names` setter (source lines 801–830). The source's
`self._align[old_name]` lookups cannot fail (every current field name
has an entry by construction); `(alGet m x).getD _` renders them total.
The trailing `pop` loops only fire for names without an entry (dead in
practice) and `alPop` is a no-op there. This is the post-validation body
of the setter. -/
def set_field_names_apply (t : Table κ) (val : List String) : Table κ :=
    let old_names : Option (List String) :=
      if t.field_names ≠ [] then some t.field_names else none
    let t1 := {t with field_names := val}
    let t2 := _column_specific_args t1
    let t3 :=
      match old_names with
      | some olds =>
        if t2.align ≠ [] then
          let m1 := (olds.zip val).foldl
            (fun m p => alSet m p.2 ((alGet m p.1).getD Align.c)) t2.align
          let m2 := olds.foldl (fun m o => if (alGet m o).isNone then alPop m o else m) m1
          {t2 with align := m2}
        else set_align t2 (some .c)
      | none =>
        if t2.align ≠ [] then
          let m1 := t2.field_names.foldl
            (fun m f => alSet m f ((alGet m BASE_ALIGN_VALUE).getD Align.c)) t2.align
          {t2 with align := m1}
        else set_align t2 (some .c)
    let t4 :=
      match old_names with
      | some olds =>
        if t3.valign ≠ [] then
          let m1 := (olds.zip val).foldl
            (fun m p => alSet m p.2 ((alGet m p.1).getD VAlign.t)) t3.valign
          let m2 := olds.foldl (fun m o => if (alGet m o).isNone then alPop m o else m) m1
          {t3 with valign := m2}
        else set_valign t3 (some .t)
      | none => set_valign t3 (some .t)
    t4

/-- `field_names` setter: validation, then `set_field_names_apply`. -/
def set_field_names (t : Table κ) (val : List String) : Table κ × Option String :=
  if t.field_names ≠ [] ∧ val.length ≠ t.field_names.length then
    (t, some "Field name list has incorrect number of values")
  else if t.rows ≠ [] ∧ val.length ≠ (t.rows.headD []).length then
    (t, some "Field name list has incorrect number of values")
  else if ¬ val.Nodup then
    (t, some "Field names must be unique")
  else
    (set_field_names_apply t val, none)

/-- `PrettyTable(field_names)` with no further kwargs, at the default
sort-key (`lambda x: x`) and Python's list comparison. -/
def PrettyTable_new (names : List String) : Table (List Val) :=
  let t0 : Table (List Val) :=
    { sort_key := fun x => x, klt := pyListValLt }
  let t1 := if names ≠ [] then (set_field_names t0 names).1 else t0
  _column_specific_args t1

/-! ### Data input methods -/

/-- `add_row` (source lines 1673–1690). -/
def add_row (t : Table κ) (row : List Val) (divider : Bool) : Table κ × Option String :=
  if t.field_names ≠ [] ∧ row.length ≠ t.field_names.length then
    (t, some "Row has incorrect number of values")
  else
    let fr :=
      if t.field_names = [] then
        set_field_names t ((List.range row.length).map (fun n => "Field " ++ toString (n + 1)))
      else (t, none)
    match fr with
    | (t1, some e) => (t1, some e)
    | (t1, none) =>
      ({t1 with rows := t1.rows ++ [row], dividers := t1.dividers ++ [divider]}, none)

/-- The `for row in rows[:-1]` loop of `add_rows`: thread the state,
stopping at the first raise (the rows already appended remain). -/
def add_rows_loop (t : Table κ) : List (List Val) → Table κ × Option String
  | [] => (t, none)
  | r :: rs =>
    match add_row t r false with
    | (t', some e) => (t', some e)
    | (t', none) => add_rows_loop t' rs

/-- `add_rows` (source lines 1657–1671). -/
def add_rows (t : Table κ) (rows : List (List Val)) (divider : Bool) :
    Table κ × Option String :=
  match add_rows_loop t rows.dropLast with
  | (t', some e) => (t', some e)
  | (t', none) =>
    match rows.getLast? with
    | some lastRow => add_row t' lastRow divider
    | none => (t', none)

/-- `del_row` (source lines 1692–1706). The index is a Python `int`
(negative indexing included); a very negative index makes the `del`
itself raise `IndexError` before any mutation. -/
def del_row (t : Table κ) (row_index : Int) : Table κ × Option String :=
  if row_index > (t.rows.length : Int) - 1 then
    (t, some "Can't delete row at index")
  else if row_index < -(t.rows.length : Int) then
    (t, some "list assignment index out of range")
  else
    let n := (if 0 ≤ row_index then row_index else row_index + t.rows.length).toNat
    ({t with rows := t.rows.eraseIdx n, dividers := t.dividers.eraseIdx n}, none)

/-- `add_divider` (source lines 1708–1711). -/
def add_divider (t : Table κ) : Table κ :=
  if t.dividers.length ≥ 1 then {t with dividers := t.dividers.dropLast ++ [true]} else t

/-- The `for i in range(len(column))` loop of `add_column`: grow the row
list on demand (adding a divider flag for each created row) and append
the column value to row `i`. -/
def add_column_cells (t : Table κ) : List Val → Nat → Table κ
  | [], _ => t
  | v :: vs, i =>
    let t1 :=
      if t.rows.length < i + 1 then
        {t with rows := t.rows ++ [[]], dividers := t.dividers ++ [false]}
      else t
    let t2 := {t1 with rows := t1.rows.set i ((t1.rows.getD i []) ++ [v])}
    add_column_cells t2 vs (i + 1)

/-- `add_column` (source lines 1713–1748). `_validate_align`/`_validate_valign`
accept every value of the `Align`/`VAlign` types. -/
def add_column (t : Table κ) (fieldname : String) (column : List Val)
    (align : Align) (valign : VAlign) : Table κ × Option String :=
  if t.rows.length = 0 ∨ t.rows.length = column.length then
    let t1 := {t with field_names := t.field_names ++ [fieldname],
                      align := alSet t.align fieldname align,
                      valign := alSet t.valign fieldname valign}
    (add_column_cells t1 column 0, none)
  else
    (t, some "Column length does not match number of rows")

/-- `add_autoindex` (source lines 1750–1758). -/
def add_autoindex (t : Table κ) (fieldname : String) : Table κ :=
  {t with field_names := fieldname :: t.field_names,
          align := alSet t.align fieldname (t.kwargs_align.getD Align.c),
          valign := alSet t.valign fieldname (t.kwargs_valign.getD VAlign.t),
          rows := t.rows.enum.map (fun p => Val.n ((p.1 : Int) + 1) :: p.2)}

/-- `del_column` (source lines 1760–1779). -/
def del_column (t : Table κ) (fieldname : String) : Table κ × Option String :=
  if fieldname ∉ t.field_names then
    (t, some "Can't delete column which is not a field name of this table")
  else
    let col_index := t.field_names.indexOf fieldname
    ({t with field_names := t.field_names.eraseIdx col_index,
             rows := t.rows.map (fun r => r.eraseIdx col_index)}, none)

/-- `clear_rows` (source lines 1781–1785). -/
def clear_rows (t : Table κ) : Table κ :=
  {t with rows := [], dividers := []}

/-- `clear` (source lines 1787–1794); the reset of the transient
`self._widths` has no counterpart in the store. -/
def clear (t : Table κ) : Table κ :=
  {t with rows := [], dividers := [], field_names := []}

/-! ### Preset style logic -/

/-- `_set_default_style` (source lines 1575–1594). -/
def _set_default_style (t : Table κ) : Table κ :=
  {t with header := true, border := true, hrules := .FRAME, vrules := .ALL,
          padding_width := 1, left_padding_width := some 1, right_padding_width := some 1,
          vertical_char := '|', horizontal_char := '-', horizontal_align_char := none,
          junction_char := '+',
          top_junction_char := none, bottom_junction_char := none,
          right_junction_char := none, left_junction_char := none,
          top_right_junction_char := none, top_left_junction_char := none,
          bottom_right_junction_char := none, bottom_left_junction_char := none}

/-- `_set_orgmode_style` (source lines 1561–1562). -/
def _set_orgmode_style (t : Table κ) : Table κ :=
  {t with orgmode := true}

/-- `_set_markdown_style` (source lines 1564–1573). -/
def _set_markdown_style (t : Table κ) : Table κ :=
  {t with header := true, border := true, hrules := .HEADER,
          padding_width := 1, left_padding_width := some 1, right_padding_width := some 1,
          vertical_char := '|', junction_char := '|', horizontal_align_char := some ':'}

/-- `_set_msword_style` (source lines 1596–1603). -/
def _set_msword_style (t : Table κ) : Table κ :=
  {t with header := true, border := true, hrules := .NONE,
          padding_width := 1, left_padding_width := some 1, right_padding_width := some 1,
          vertical_char := '|'}

/-- `_set_columns_style` (source lines 1605–1610). -/
def _set_columns_style (t : Table κ) : Table κ :=
  {t with header := true, border := false,
          padding_width := 1, left_padding_width := some 0, right_padding_width := some 8}

/-- `_set_double_border_style` (source lines 1612–1623). -/
def _set_double_border_style (t : Table κ) : Table κ :=
  {t with horizontal_char := '═', vertical_char := '║', junction_char := '╬',
          top_junction_char := some '╦', bottom_junction_char := some '╩',
          right_junction_char := some '╣', left_junction_char := some '╠',
          top_right_junction_char := some '╗', top_left_junction_char := some '╔',
          bottom_right_junction_char := some '╝', bottom_left_junction_char := some '╚'}

/-- `_set_single_border_style` (source lines 1625–1636). -/
def _set_single_border_style (t : Table κ) : Table κ :=
  {t with horizontal_char := '─', vertical_char := '│', junction_char := '┼',
          top_junction_char := some '┬', bottom_junction_char := some '┴',
          right_junction_char := some '┤', left_junction_char := some '├',
          top_right_junction_char := some '┐', top_left_junction_char := some '┌',
          bottom_right_junction_char := some '┘', bottom_left_junction_char := some '└'}

/-- The values drawn from `random` by `_set_random_style`, passed in
explicitly to keep the transition a function. -/
structure RandomDraws where
  header : Bool
  border : Bool
  hrules : HRuleStyle
  vrules : VRuleStyle
  lpad : Nat
  rpad : Nat
  vchar : Char
  hchar : Char
  jchar : Char
  pib : Bool

/-- `_set_random_style` (source lines 1638–1651). -/
def _set_random_style (t : Table κ) (d : RandomDraws) : Table κ :=
  {t with header := d.header, border := d.border, hrules := d.hrules, vrules := d.vrules,
          left_padding_width := some d.lpad, right_padding_width := some d.rpad,
          vertical_char := d.vchar, horizontal_char := d.hchar, junction_char := d.jchar,
          preserve_internal_border := d.pib}

/-- `set_style` (source lines 1540–1559). The `Invalid pre-set style`
raise is unreachable: `TableStyle` enumerates exactly the presets. -/
def set_style (t : Table κ) (style : TableStyle) (draws : RandomDraws) : Table κ :=
  let t1 := _set_default_style t
  let t2 := {t1 with style := some style}
  match style with
  | .MSWORD_FRIENDLY => _set_msword_style t2
  | .PLAIN_COLUMNS => _set_columns_style t2
  | .MARKDOWN => _set_markdown_style t2
  | .ORGMODE => _set_orgmode_style t2
  | .DOUBLE_BORDER => _set_double_border_style t2
  | .SINGLE_BORDER => _set_single_border_style t2
  | .RANDOM => _set_random_style t2 draws
  | .DEFAULT => t2

/-! ## Resolved render options

`_get_options({})` snapshots the persistent attributes through the
property getters; in particular the position-specific junction
characters are resolved against the shared `junction_char` here (at
option-build time). Per-column maps and flags that the plain-text
renderer reads directly from `self` (`_align`, `_valign`, `min_width`,
`max_width`, `none_format`, `_horizontal_align_char`, formatter maps,
escape flags) are looked up on the `Table` by the functions below, as in
the source. -/

structure Options (κ : Type) where
  title : Option String
  start : Nat
  «end» : Option Nat
  fields : Option (List String)
  header : Bool
  use_header_width : Bool
  border : Bool
  preserve_internal_border : Bool
  sortby : Option String
  reversesort : Bool
  sort_key : List Val → κ
  row_filter : List Val → Bool
  hrules : HRuleStyle
  vrules : VRuleStyle
  min_table_width : Option Nat
  max_table_width : Option Nat
  padding_width : Nat
  left_padding_width : Option Nat
  right_padding_width : Option Nat
  vertical_char : Char
  horizontal_char : Char
  /-- the `horizontal_align_char` getter returns
  `self._bottom_left_junction_char or self.junction_char` (source line
  1285); the plain-text renderer never reads this options entry. -/
  horizontal_align_char : Char
  junction_char : Char
  top_junction_char : Char
  bottom_junction_char : Char
  right_junction_char : Char
  left_junction_char : Char
  top_right_junction_char : Char
  top_left_junction_char : Char
  bottom_right_junction_char : Char
  bottom_left_junction_char : Char
  header_style : Option HeaderStyle
  print_empty : Bool
  oldsortslice : Bool
  break_on_hyphens : Bool

/-- `_get_options(kwargs)` with empty `kwargs` (source lines 1526–1534):
every option is read from the corresponding property. -/
def getOptions (t : Table κ) : Options κ :=
  { title := t.title, start := t.start, «end» := t.«end», fields := t.fields,
    header := t.header, use_header_width := t.use_header_width, border := t.border,
    preserve_internal_border := t.preserve_internal_border,
    sortby := t.sortby, reversesort := t.reversesort,
    sort_key := t.sort_key, row_filter := t.row_filter,
    hrules := t.hrules, vrules := t.vrules,
    min_table_width := t.min_table_width, max_table_width := t.max_table_width,
    padding_width := t.padding_width,
    left_padding_width := t.left_padding_width,
    right_padding_width := t.right_padding_width,
    vertical_char := t.vertical_char, horizontal_char := t.horizontal_char,
    horizontal_align_char := t.bottom_left_junction_char.getD t.junction_char,
    junction_char := t.junction_char,
    top_junction_char := t.top_junction_char.getD t.junction_char,
    bottom_junction_char := t.bottom_junction_char.getD t.junction_char,
    right_junction_char := t.right_junction_char.getD t.junction_char,
    left_junction_char := t.left_junction_char.getD t.junction_char,
    top_right_junction_char := t.top_right_junction_char.getD t.junction_char,
    top_left_junction_char := t.top_left_junction_char.getD t.junction_char,
    bottom_right_junction_char := t.bottom_right_junction_char.getD t.junction_char,
    bottom_left_junction_char := t.bottom_left_junction_char.getD t.junction_char,
    header_style := t.header_style, print_empty := t.print_empty,
    oldsortslice := t.oldsortslice, break_on_hyphens := t.break_on_hyphens }

/-- The column-selection predicate used throughout the renderer:
`not options["fields"] or fieldname in options["fields"]` (an empty
`fields` list is falsy and selects everything). -/
def fieldSelected (optfields : Option (List String)) (f : String) : Bool :=
  match optfields with
  | none => true
  | some l => if l = [] then true else l.contains f

/-! ## Row selection: `list.sort`, `_get_rows`, `_get_dividers` -/

/-- One step of a stable insertion: `x` is placed before the first
already-placed element whose key does not compare strictly below
`key x`. -/
def pyInsert (lt : κ → κ → Bool) (key : α → κ) (x : α) : List α → List α
  | [] => [x]
  | y :: ys => if lt (key y) (key x) then y :: pyInsert lt key x ys else x :: y :: ys

/-- Insertion sort from the right: `sortAsc (x :: xs)` inserts `x` into
the sorted tail, so `x` lands before every tied element of `xs`. -/
def pySortAsc (lt : κ → κ → Bool) (key : α → κ) : List α → List α
  | [] => []
  | x :: xs => pyInsert lt key x (pySortAsc lt key xs)

/-- Python `list.sort(key=key, reverse=reverse)`. Python's sort is
stable, and for consistent comparisons every stable sort produces the
same list, so the stable insertion sort above is extensionally the
source's Timsort; `reverse=True` reverses each comparison while keeping
stability, i.e. sorts with the flipped strict comparator. -/
def pySort (lt : κ → κ → Bool) (key : α → κ) (reverse : Bool) (l : List α) : List α :=
  if reverse then pySortAsc (fun a b => lt b a) key l else pySortAsc lt key l

/-- `_get_rows(options)` (source lines 1946–1975). The decoration
`[row[sortindex]] + row` reads `row[sortindex]`, total here via `getD`
(every stored row spans all fields when the store invariants hold). -/
def _get_rows (t : Table κ) (options : Options κ) : List (List Val) :=
  let rows0 :=
    if options.oldsortslice then pySlice t.rows options.start options.«end» else t.rows
  let rows1 := rows0.filter options.row_filter
  let rows2 :=
    if truthyStr options.sortby then
      let sortindex := t.field_names.indexOf (options.sortby.getD "")
      let dec := rows1.map (fun row => row.getD sortindex (Val.s "") :: row)
      let sorted := pySort t.klt options.sort_key options.reversesort dec
      sorted.map (fun row => row.tail)
    else rows1
  if ¬ options.oldsortslice then pySlice rows2 options.start options.«end» else rows2

/-- `_get_dividers(options)` (source lines 1977–1991). -/
def _get_dividers (t : Table κ) (options : Options κ) : List Bool :=
  let d0 :=
    if options.oldsortslice then pySlice t.dividers options.start options.«end» else t.dividers
  if truthyStr options.sortby then d0.map (fun _ => false) else d0

/-! ## Value formatting -/

/-- `(f"%{spec}d") % value` for a digit-string `spec` (validated by
`_validate_int_format`): right-justify the decimal rendering in `spec`
columns. -/
def pyIntFormat (spec : String) (i : Int) : String :=
  let digits := toString i
  match spec.toNat? with
  | some w =>
    if digits.length < w then
      String.mk (List.replicate (w - digits.length) ' ') ++ digits
    else digits
  | none => digits

/-- `_format_value(field, value)` (source lines 1835–1842); the
`float` branch is outside the modelled value kinds. -/
def _format_value (t : Table κ) (field : String) (value : Val) : String :=
  match value with
  | .n i =>
    match alGet t.int_format field with
    | some spec => pyIntFormat spec i
    | none => ((alGet t.custom_format field).getD (fun _ v => pyStr v)) field value
  | .s _ => ((alGet t.custom_format field).getD (fun _ v => pyStr v)) field value

/-- `_format_row(row)` (source lines 1993–1997). -/
def _format_row (t : Table κ) (row : List Val) : List String :=
  (t.field_names.zip row).map (fun p => _format_value t p.1 p.2)

/-- `_format_rows(rows)` (source lines 1999–2000). -/
def _format_rows (t : Table κ) (rows : List (List Val)) : List (List String) :=
  rows.map (_format_row t)

/-! ## Width computation -/

/-- `_get_padding_widths(options)` (source lines 1935–1944). -/
def _get_padding_widths (options : Options κ) : Nat × Nat :=
  (options.left_padding_width.getD options.padding_width,
   options.right_padding_width.getD options.padding_width)

/-- `_compute_table_width(options)` (source lines 1844–1857). The first
branch's `table_width = 2` for `vrules == FRAME` is immediately
overwritten: the second conditional is `if/else`, not `elif`, so the
initial value is `1` for `ALL` and `0` otherwise. -/
def _compute_table_width (t : Table κ) (options : Options κ) (widths : List Nat) : Nat :=
  let init := if options.vrules = .ALL then 1 else 0
  let pcp := (_get_padding_widths options).1 + (_get_padding_widths options).2
  (t.field_names.enum).foldl
    (fun acc p =>
      if fieldSelected options.fields p.2 then acc + widths.getD p.1 0 + pcp + 1 else acc)
    init

/-- The new value of `widths[index]` for one cell visit of the seeding
loop of `_compute_widths` (source lines 1865–1889): `None`-placeholder
substitution, the `max_width` clamp, the `min_width` clamp, and the
Markdown minimum, starting from the current `w0 = widths[index]`. -/
def cellUpdate (t : Table κ) (idx : Nat) (w0 : Nat) (value : String) : Nat :=
  let fieldname := t.field_names.getD idx ""
  let value :=
    if value = "None" ∧ ((alGet t.none_format fieldname).join).isSome then
      ((alGet t.none_format fieldname).join).getD value
    else value
  let w1 :=
    match alGet t.max_width fieldname with
    | some mw => max w0 (min (_get_size value).1 mw)
    | none => max w0 (_get_size value).1
  let w2 :=
    match alGet t.min_width fieldname with
    | some minw => max w1 minw
    | none => w1
  if t.style = some .MARKDOWN then
    match (alGet t.align fieldname).getD Align.c with
    | .l | .r => max 1 w2
    | .c => max 3 w2
  else w2

/-- One cell visit of the seeding loop: write the updated width back. -/
def _compute_widths_cell (t : Table κ) (ws : List Nat) (idx : Nat) (value : String) :
    List Nat :=
  ws.set idx (cellUpdate t idx (ws.getD idx 0) value)

/-- The inner `for index, value in enumerate(row)` loop, with the
enumeration starting at `n` (the source always starts at 0; the general
start carries the induction below). -/
def rowFoldFrom (t : Table κ) (n : Nat) (ws : List Nat) (row : List String) : List Nat :=
  (row.enumFrom n).foldl (fun ws p => _compute_widths_cell t ws p.1 p.2) ws

/-- The seeding phase of `_compute_widths`: header widths (or zeros)
refined over every formatted cell. -/
def _compute_widths_pre (t : Table κ) (options : Options κ) (rows : List (List String)) :
    List Nat :=
  let widths0 :=
    if options.header ∧ options.use_header_width then
      t.field_names.map (fun f => (_get_size f).1)
    else List.replicate t.field_names.length 0
  rows.foldl (fun ws row => rowFoldFrom t 0 ws row) widths0

/-- The `max_table_width` shrink of `_compute_widths` (source lines
1893–1903) applied to one column width:
`max(1, int(w * ((M - markup) / (T - markup))))` in exact arithmetic.
With every column displayed, `T > markup`, and then the `Nat`
subtraction/division below is exactly the truncated exact ratio: for
`M > markup` both are `⌊w(M - markup)/(T - markup)⌋`, and for
`M ≤ markup` the float scale is `≤ 0`, `int()` truncates toward zero and
`max(1, ·)` yields `1`, as does `w * 0 / _ = 0` here. -/
def shrunkWidth (M markup T w : Nat) : Nat :=
  max 1 (w * (M - markup) / (T - markup))

/-- The `min_table_width`/title grow of `_compute_widths` (source lines
1905–1933), from the pre-shrink widths. `minw` is the already-reduced
target (`min_width` after subtracting padding and borders). The
`widths[-1] += ...` fix-up on an empty width list would be an
`IndexError` in the source (no fields — unreachable in the claims);
here the empty list is returned unchanged. -/
def growWidths (ws : List Nat) (minw : Nat) : List Nat :=
  let content_width := if ws.sum = 0 then 1 else ws.sum
  if content_width < minw then
    let gs := ws.map (fun w => w * minw / content_width)
    if gs.sum < minw then
      match gs.getLast? with
      | some glast => gs.dropLast ++ [glast + (minw - gs.sum)]
      | none => gs
    else gs
  else ws

/-- The table-level rescaling of `_compute_widths` (source lines
1893–1933) as a function of the seeded widths. Note the source's grow
phase rescales the local `widths` list (pre-shrink), not the shrunk
`self._widths`. -/
def _compute_widths_from (t : Table κ) (options : Options κ) (widths : List Nat) :
    List Nat :=
  let pcp := (_get_padding_widths options).1 + (_get_padding_widths options).2
  let afterShrink :=
    if truthyNat t.max_table_width then
      let M := t.max_table_width.getD 0
      let table_width := _compute_table_width t options widths
      if table_width > M then
        let markup_chars := pcp * widths.length + widths.length - 1
        widths.map (shrunkWidth M markup_chars table_width)
      else widths
    else widths
  if truthyNat t.min_table_width ∨ truthyStr options.title then
    let title_width :=
      if truthyStr options.title then
        _str_block_width (options.title.getD "") + pcp +
          (if options.vrules = .FRAME ∨ options.vrules = .ALL then 2 else 0)
      else 0
    let min_table_width := t.min_table_width.getD 0
    let borders :=
      if options.border then widths.length + 1
      else if options.preserve_internal_border then widths.length
      else 0
    let min_width := max title_width min_table_width - (pcp * widths.length + borders)
    let grown := growWidths widths min_width
    if (if widths.sum = 0 then 1 else widths.sum) < min_width then grown else afterShrink
  else afterShrink

/-- `_compute_widths(rows, options)` (source lines 1859–1933), returning
the final `self._widths`: seed, then rescale. -/
def _compute_widths (t : Table κ) (options : Options κ) (rows : List (List String)) :
    List Nat :=
  _compute_widths_from t options (_compute_widths_pre t options rows)

/-! ## Grid renderer -/

/-- `" " * n` for a `Nat` count. -/
def spacesN (n : Nat) : String :=
  String.mk (List.replicate n ' ')

/-- Split a character list into `w`-sized chunks (`w > 0`). -/
def chunksOf (w : Nat) (l : List Char) : List (List Char) :=
  (List.range ((l.length + w - 1) / w)).map (fun i => ((l.drop (i * w)).take w))

/-- Modelled from the spec: `textwrap.fill(line, width, break_on_hyphens=...)`
(the `textwrap` module is the standard library, external to this
repository) — greedy word wrapping at single spaces, force-breaking
words longer than the width into width-sized chunks (textwrap's default
`break_long_words=True`); hyphen break-points are not modelled. The
renderer only calls this when a cell line overflows its column, which no
evaluated input of this development does (`width = 0` would raise
`ValueError` in Python and returns the line unchanged here). -/
def textwrap_fill (line : String) (width : Nat) (_break_on_hyphens : Bool) : String :=
  if width = 0 then line
  else
    let words := (strSplit ' ' line).filter (fun s => s ≠ "")
    let pieces := words.flatMap
      (fun word => if word.data.length ≤ width then [word] else (chunksOf width word.data).map String.mk)
    let step := fun (acc : List String × String) piece =>
      let doneLines := acc.1
      let cur := acc.2
      if cur = "" then (doneLines, piece)
      else if cur.data.length + 1 + piece.data.length ≤ width then (doneLines, cur ++ " " ++ piece)
      else (doneLines ++ [cur], piece)
    let fin := pieces.foldl step ([], "")
    strJoin "\n" (if fin.2 = "" then fin.1 else fin.1 ++ [fin.2])

/-- The `where` parameter of `_stringify_hrule` (`""`, `"top_"`, `"bottom_"`). -/
inductive HruleWhere where
  | mid | top | bottom
deriving DecidableEq, Repr

/-- `options[where + "left_junction_char"]`. -/
def whereLeftJ (options : Options κ) : HruleWhere → Char
  | .mid => options.left_junction_char
  | .top => options.top_left_junction_char
  | .bottom => options.bottom_left_junction_char

/-- `options[where + "right_junction_char"]`. -/
def whereRightJ (options : Options κ) : HruleWhere → Char
  | .mid => options.right_junction_char
  | .top => options.top_right_junction_char
  | .bottom => options.bottom_right_junction_char

/-- `options[where + "junction_char"]`. -/
def whereJ (options : Options κ) : HruleWhere → Char
  | .mid => options.junction_char
  | .top => options.top_junction_char
  | .bottom => options.bottom_junction_char

/-- `_stringify_hrule(options, where)` (source lines 2127–2166). -/
def _stringify_hrule (t : Table κ) (options : Options κ) (widths : List Nat)
    (wh : HruleWhere) : String :=
  if ¬ options.border ∧ ¬ options.preserve_internal_border then ""
  else
    let lpad := (_get_padding_widths options).1
    let rpad := (_get_padding_widths options).2
    let vr := options.vrules = VRuleStyle.ALL ∨ options.vrules = VRuleStyle.FRAME
    let bits0 : List String :=
      if vr then [String.mk [whereLeftJ options wh]] else [String.mk [options.horizontal_char]]
    if t.field_names = [] then
      String.join (bits0 ++ [String.mk [whereRightJ options wh]])
    else
      let bits1 := bits0 ++ (t.field_names.zip widths).flatMap (fun p =>
        if ¬ fieldSelected options.fields p.1 then []
        else
          let line0 := String.mk (List.replicate (p.2 + lpad + rpad) options.horizontal_char)
          let line1 :=
            match t.horizontal_align_char with
            | some hac =>
              let al := (alGet t.align p.1).getD Align.c
              let lineA :=
                if al = Align.l ∨ al = Align.c then
                  " " ++ String.mk [hac] ++ strDrop line0 2
                else line0
              if al = Align.c ∨ al = Align.r then
                strDropRight lineA 2 ++ String.mk [hac] ++ " "
              else lineA
            | none => line0
          [line1,
           if options.vrules = VRuleStyle.ALL then String.mk [whereJ options wh]
           else String.mk [options.horizontal_char]])
      let bits2 := if vr then bits1.dropLast ++ [String.mk [whereRightJ options wh]] else bits1
      let bits3 :=
        if options.preserve_internal_border ∧ ¬ options.border then (bits2.drop 1).dropLast
        else bits2
      String.join bits3

/-- Replace the first and last character of a line by the given junction
characters (`left_j + line[len:-len] + right_j` with single-character
junctions). -/
def replaceEnds (s : String) (lch rch : Char) : String :=
  String.mk [lch] ++ strDropRight (strDrop s 1) 1 ++ String.mk [rch]

/-- `_stringify_title(title, options)` (source lines 2168–2193). The
source temporarily rewrites `options["vrules"]` to `FRAME` around the
rule call and restores it; here the modified options record is passed
to that call only. -/
def _stringify_title (t : Table κ) (options : Options κ) (widths : List Nat)
    (title : String) : String :=
  let lpad := (_get_padding_widths options).1
  let rpad := (_get_padding_widths options).2
  let lines0 : List String :=
    if options.border then
      if options.vrules = VRuleStyle.ALL then
        [_stringify_hrule t {options with vrules := VRuleStyle.FRAME} widths .top]
      else if options.vrules = VRuleStyle.FRAME then
        [_stringify_hrule t options widths .top]
      else []
    else []
  let endpoint :=
    if (options.vrules = VRuleStyle.ALL ∨ options.vrules = VRuleStyle.FRAME)
        ∧ options.border then
      String.mk [options.vertical_char]
    else " "
  let titlePad := spacesN lpad ++ title ++ spacesN rpad
  let sum_widths := (widths.map (fun n => n + lpad + rpad + 1)).sum
  let bits := [endpoint, _justify titlePad (sum_widths - 1) .c, endpoint]
  strJoin "\n" (lines0 ++ [String.join bits])

/-- `str.capitalize()` (ASCII case mapping suffices here). -/
def pyCapitalize (s : String) : String :=
  match s.data with
  | [] => ""
  | ch :: rest => String.mk (ch.toUpper :: rest.map Char.toLower)

/-- `str.title()`: uppercase each cased character that follows an
uncased one, lowercase the rest (ASCII case mapping). -/
def pyTitle (s : String) : String :=
  let step := fun (acc : List Char × Bool) ch =>
    if ch.isAlpha then
      ((if acc.2 then ch.toLower else ch.toUpper) :: acc.1, true)
    else (ch :: acc.1, false)
  String.mk (s.data.foldl step ([], false)).1.reverse

/-- Apply `header_style` to a field name (source lines 2226–2235). -/
def applyHeaderStyle (hs : Option HeaderStyle) (field : String) : String :=
  match hs with
  | some .cap => pyCapitalize field
  | some .title => pyTitle field
  | some .upper => String.mk (field.data.map Char.toUpper)
  | some .lower => String.mk (field.data.map Char.toLower)
  | none => field

/-- `_stringify_header(options)` (source lines 2195–2264); `hrule` is the
precomputed `self._hrule`. -/
def _stringify_header (t : Table κ) (options : Options κ) (widths : List Nat)
    (hrule : String) : String :=
  let lpad := (_get_padding_widths options).1
  let rpad := (_get_padding_widths options).2
  let bits0 : List String :=
    if options.border then
      (if options.hrules = HRuleStyle.ALL ∨ options.hrules = HRuleStyle.FRAME then
        let top := _stringify_hrule t options widths .top
        let top :=
          if truthyStr options.title
              ∧ (options.vrules = VRuleStyle.ALL ∨ options.vrules = VRuleStyle.FRAME) then
            replaceEnds top (t.left_junction_char.getD t.junction_char)
              (t.right_junction_char.getD t.junction_char)
          else top
        [top, "\n"]
      else []) ++
      [if options.vrules = VRuleStyle.ALL ∨ options.vrules = VRuleStyle.FRAME then
        String.mk [options.vertical_char]
      else " "]
    else []
  let bits1 :=
    if t.field_names = [] then
      bits0 ++
        [if options.vrules = VRuleStyle.ALL ∨ options.vrules = VRuleStyle.FRAME then
          String.mk [options.vertical_char]
        else " "]
    else bits0
  let bits2 := bits1 ++ (t.field_names.zip widths).flatMap (fun p =>
    if ¬ fieldSelected options.fields p.1 then []
    else
      let fieldname := applyHeaderStyle t.header_style p.1
      let fieldname :=
        if _str_block_width fieldname > p.2 then strTake fieldname p.2 else fieldname
      [spacesN lpad ++ _justify fieldname p.2 ((alGet t.align p.1).getD Align.c) ++
        spacesN rpad] ++
      (if options.border ∨ options.preserve_internal_border then
        [if options.vrules = VRuleStyle.ALL then String.mk [options.vertical_char] else " "]
      else []))
  let bits3 :=
    if ¬ options.border ∧ options.preserve_internal_border then bits2.dropLast ++ [" "]
    else bits2
  let bits4 :=
    if options.border ∧ options.vrules = VRuleStyle.FRAME then
      bits3.dropLast ++ [String.mk [options.vertical_char]]
    else bits3
  let bits5 :=
    if (options.border ∨ options.preserve_internal_border)
        ∧ options.hrules ≠ HRuleStyle.NONE then
      bits4 ++ ["\n", hrule]
    else bits4
  String.join bits5

/-- The per-line wrapping of one cell in `_stringify_row` (source lines
2269–2288): `None`-placeholder substitution, then greedy wrap of lines
wider than the column. -/
def wrapCellValue (t : Table κ) (options : Options κ) (field : String) (width : Nat)
    (value : String) : String :=
  let lines := strSplit '\n' value
  let new_lines := lines.map (fun line =>
    let line :=
      if line = "None" ∧ ((alGet t.none_format field).join).isSome then
        ((alGet t.none_format field).join).getD line
      else line
    if _str_block_width line > width then textwrap_fill line width options.break_on_hyphens
    else line)
  strJoin "\n" new_lines

/-- Pad a cell's line list to the row height per its vertical alignment
(source lines 2307–2320). -/
def padLines (valign : VAlign) (row_height : Nat) (lines : List String) : List String :=
  let d := row_height - lines.length
  if d ≠ 0 then
    match valign with
    | .m => List.replicate (d / 2) "" ++ lines ++ List.replicate (d - d / 2) ""
    | .b => List.replicate d "" ++ lines
    | .t => lines ++ List.replicate d ""
  else lines

/-- `l` with its last element replaced by `f` of it (`l[-1]` updates on a
non-empty list; the empty case cannot be reached by the callers). -/
def modifyLast (l : List α) (f : α → α) : List α :=
  match l.getLast? with
  | some x => l.dropLast ++ [f x]
  | none => []

/-- `_stringify_row(row, options, hrule)` (source lines 2266–2355).
`bits` is the source's list of per-output-line fragment lists. -/
def _stringify_row (t : Table κ) (options : Options κ) (widths : List Nat)
    (row : List String) (hrule : String) : String :=
  let lpad := (_get_padding_widths options).1
  let rpad := (_get_padding_widths options).2
  let zipped := (t.field_names.zip row).zip widths
  let row2 := zipped.map (fun p => wrapCellValue t options p.1.1 p.2 p.1.2) ++
    row.drop zipped.length
  let row_height := row2.foldl (fun acc c => max acc (_get_size c).2) 0
  let initFrag : List String :=
    if options.border then
      [if options.vrules = VRuleStyle.ALL ∨ options.vrules = VRuleStyle.FRAME then
        String.mk [t.vertical_char]
      else " "]
    else []
  let bits0 : List (List String) := List.replicate row_height initFrag
  let cols := (t.field_names.zip row2).zip widths
  let bits1 := cols.foldl (fun bits p =>
    let field := p.1.1
    let value := p.1.2
    let width := p.2
    let valign := (alGet t.valign field).getD VAlign.t
    let lines := padLines valign row_height (strSplit '\n' value)
    List.zipWith (fun b line =>
      if ¬ fieldSelected options.fields field then b
      else
        b ++ [spacesN lpad ++ _justify line width ((alGet t.align field).getD Align.c) ++
          spacesN rpad] ++
        (if options.border ∨ options.preserve_internal_border then
          [if options.vrules = VRuleStyle.ALL then String.mk [t.vertical_char] else " "]
        else [])) bits lines) bits0
  let bits2 :=
    if ¬ options.border ∧ options.preserve_internal_border then
      modifyLast bits1 (fun b => b.dropLast ++ [" "])
    else bits1
  let bits3 :=
    if options.border ∧ options.vrules = VRuleStyle.FRAME then
      bits3fix bits2 options
    else bits2
  let bits4 :=
    if options.border ∧ options.hrules = HRuleStyle.ALL then
      modifyLast bits3 (fun b => b ++ ["\n", hrule])
    else bits3
  strJoin "\n" (bits4.map String.join)
where
  /-- the `for y in range(row_height)` pop/append of the FRAME fix-up -/
  bits3fix (bits : List (List String)) (options : Options κ) : List (List String) :=
    bits.map (fun b => b.dropLast ++ [String.mk [options.vertical_char]])

/-- `title = options["title"] or self._title` followed by the `if title:`
truthiness test of `get_string`. -/
def effTitle (t : Table κ) (options : Options κ) : Option String :=
  let o := if truthyStr options.title then options.title else t.title
  if truthyStr o then o else none

/-- `get_string(**kwargs)` (source lines 2006–2125) for already-resolved
options. -/
def get_string_opts (t : Table κ) (options : Options κ) : String :=
  if t.rows.length = 0 ∧ (¬ options.print_empty ∨ ¬ options.border) then ""
  else
    let rows := _get_rows t options
    let dividers := _get_dividers t options
    let formatted_rows := _format_rows t rows
    let widths := _compute_widths t options formatted_rows
    let hrule := _stringify_hrule t options widths .mid
    let lines0 : List String :=
      match effTitle t options with
      | some ti => [_stringify_title t options widths ti]
      | none => []
    let lines1 :=
      if options.header then
        lines0 ++ [_stringify_header t options widths hrule]
      else if options.border ∧
          (options.hrules = HRuleStyle.ALL ∨ options.hrules = HRuleStyle.FRAME) then
        let top := _stringify_hrule t options widths .top
        let top :=
          if (effTitle t options).isSome
              ∧ (options.vrules = VRuleStyle.ALL ∨ options.vrules = VRuleStyle.FRAME) then
            replaceEnds top (t.left_junction_char.getD t.junction_char)
              (t.right_junction_char.getD t.junction_char)
          else top
        lines0 ++ [top]
      else lines0
    let body := formatted_rows.dropLast.zip dividers.dropLast
    let lines2 := lines1 ++ body.flatMap (fun p =>
      [_stringify_row t options widths p.1 hrule] ++
        (if p.2 then [_stringify_hrule t options widths .mid] else []))
    let lines3 :=
      match formatted_rows.getLast? with
      | some lastRow =>
        lines2 ++ [_stringify_row t options widths lastRow
          (_stringify_hrule t options widths .bottom)]
      | none => lines2
    let lines4 :=
      if options.border ∧ options.hrules = HRuleStyle.FRAME then
        lines3 ++ [_stringify_hrule t options widths .bottom]
      else lines3
    let lines5 :=
      if t.orgmode then
        (lines4.flatMap (fun l => strSplit '\n' l)).map
          (fun nl => "|" ++ strDropRight (strDrop nl 1) 1 ++ "|")
      else lines4
    strJoin "\n" lines5

/-- `get_string()` with no per-call overrides. -/
def get_string (t : Table κ) : String :=
  get_string_opts t (getOptions t)

/-! ## Concrete tables used by the claims -/

/-- The end-to-end scenario table: `PrettyTable(["A", "B"])` with rows
`["1", "2"]` and `["3", "4"]` added. -/
def c1table : Table (List Val) :=
  let t0 := PrettyTable_new ["A", "B"]
  let t1 := (add_row t0 [Val.s "1", Val.s "2"] false).1
  (add_row t1 [Val.s "3", Val.s "4"] false).1

/-- C1: under the default style, `get_string()` on fields `["A","B"]`
with rows `[["1","2"],["3","4"]]` returns exactly the claimed grid
(both `add_row` calls succeed on the way). -/
theorem C1_get_string_default_grid :
    (add_row (PrettyTable_new ["A", "B"]) [Val.s "1", Val.s "2"] false).2 = none ∧
    (add_row (add_row (PrettyTable_new ["A", "B"]) [Val.s "1", Val.s "2"] false).1
      [Val.s "3", Val.s "4"] false).2 = none ∧
    get_string c1table =
      "+---+---+\n| A | B |\n+---+---+\n| 1 | 2 |\n| 3 | 4 |\n+---+---+" := by
  refine ⟨by decide, by decide, by decide⟩

/-- C2: with a non-empty field list and a row of mismatched length,
`add_row` raises and leaves rows and dividers (indeed the whole table)
unchanged: no partial append. -/
theorem C2_add_row_mismatch_no_partial_append {κ : Type} (t : Table κ)
    (row : List Val) (divider : Bool)
    (hf : t.field_names ≠ []) (hl : row.length ≠ t.field_names.length) :
    add_row t row divider = (t, some "Row has incorrect number of values") ∧
    (add_row t row divider).1.rows = t.rows ∧
    (add_row t row divider).1.dividers = t.dividers ∧
    ((add_row t row divider).2).isSome = true := by
  have h : add_row t row divider = (t, some "Row has incorrect number of values") := by
    unfold add_row
    rw [if_pos ⟨hf, hl⟩]
  exact ⟨h, by rw [h], by rw [h], by rw [h]; rfl⟩

/-- Witness for `C2_add_row_mismatch_no_partial_append` at the concrete
scenario table and a one-element row. -/
theorem C2_add_row_mismatch_witness :
    c1table.field_names ≠ [] ∧ ([Val.s "1"] : List Val).length ≠ c1table.field_names.length ∧
    (add_row c1table [Val.s "1"] false = (c1table, some "Row has incorrect number of values") ∧
     (add_row c1table [Val.s "1"] false).1.rows = c1table.rows ∧
     (add_row c1table [Val.s "1"] false).1.dividers = c1table.dividers ∧
     ((add_row c1table [Val.s "1"] false).2).isSome = true) :=
  ⟨by decide, by decide,
   C2_add_row_mismatch_no_partial_append c1table [Val.s "1"] false (by decide) (by decide)⟩

/-! ## C3: filter versus slice ordering in `_get_rows` -/

/-- The decoration `[row[sortindex]] + row` of `_get_rows`: the value of
the sort column prepended to the row. -/
def decorateRow (t : Table κ) (options : Options κ) (row : List Val) : List Val :=
  row.getD (t.field_names.indexOf (options.sortby.getD "")) (Val.s "") :: row

/-- The sort step of `_get_rows` (decorate with the sort column, stable
sort by the key, undecorate), shared by both `oldsortslice` branches. -/
def sortPhase (t : Table κ) (options : Options κ) (rows : List (List Val)) :
    List (List Val) :=
  if truthyStr options.sortby then
    ((pySort t.klt options.sort_key options.reversesort
      (rows.map (decorateRow t options))).map (fun row => row.tail))
  else rows

/-- The claim's selection order, following the spec's words (§4.2
"Filtering … applied before slicing/sorting"): the row filter is applied
to the stored rows before the start/end window is cut, for every value
of `oldsortslice`. Defined for comparison with `_get_rows`. -/
def specFilterBeforeSlice (t : Table κ) (options : Options κ) : List (List Val) :=
  pySlice (t.rows.filter options.row_filter) options.start options.«end»

/-- A two-row table with `oldsortslice=True`, window `[0:1]`, and a
filter keeping only the second stored row. -/
def t3table : Table (List Val) :=
  let t0 := PrettyTable_new ["A"]
  let t1 := (add_row t0 [Val.s "p"] false).1
  let t2 := (add_row t1 [Val.s "q"] false).1
  {t2 with oldsortslice := true, start := 0, «end» := some 1,
           row_filter := fun r => r.getD 0 (Val.s "") == Val.s "q"}

/-- C3 counterexample: with `oldsortslice=True` the source slices the
stored rows *before* filtering, so the selected rows (`[]`) differ from
the claim's filter-before-slice selection (`[["q"]]`). -/
theorem C3_counterexample :
    (getOptions t3table).oldsortslice = true ∧
    _get_rows t3table (getOptions t3table) = [] ∧
    specFilterBeforeSlice t3table (getOptions t3table) = [[Val.s "q"]] ∧
    _get_rows t3table (getOptions t3table) ≠ specFilterBeforeSlice t3table (getOptions t3table) := by
  refine ⟨by decide, by decide, by decide, by decide⟩

/-- C3 amended: the filter precedes the start/end slice exactly when
`oldsortslice` is false (filter → sort → slice); when `oldsortslice` is
true the slice is taken first and the filter is applied to the sliced
rows (slice → filter → sort). -/
theorem C3_filter_slice_order {κ : Type} (t : Table κ) (options : Options κ) :
    _get_rows t options =
      if options.oldsortslice then
        sortPhase t options
          ((pySlice t.rows options.start options.«end»).filter options.row_filter)
      else
        pySlice (sortPhase t options (t.rows.filter options.row_filter))
          options.start options.«end» := by
  unfold _get_rows sortPhase decorateRow
  by_cases h : options.oldsortslice
  · simp [h]
  · simp [h]

/-! ## C5: `del_column` and the per-column maps -/

/-- C5 counterexample: `del_column` removes the column from the field
list and from every row, but the `align` entry keyed by the deleted name
survives (as do all other per-column maps), contradicting the claim that
the entry is removed from all per-column maps. -/
theorem C5_counterexample :
    (del_column c1table "B").2 = none ∧
    "B" ∉ (del_column c1table "B").1.field_names ∧
    (del_column c1table "B").1.rows = [[Val.s "1"], [Val.s "3"]] ∧
    alGet (del_column c1table "B").1.align "B" = some Align.c ∧
    alGet (del_column c1table "B").1.valign "B" = some VAlign.t ∧
    alGet (del_column c1table "B").1.none_format "B" = some none := by
  refine ⟨by decide, by decide, by decide, by decide, by decide, by decide⟩

/-- C5 amended: for every table and field name present in it,
`del_column(name)` succeeds, removes that column's value from every row
and the name from the field list (the first occurrence; the sole one
when field names are unique), but leaves every per-column map (`align`,
`valign`, `min_width`, `max_width`, `int_format`, `float_format`,
`custom_format`, `none_format`) untouched. -/
theorem C5_del_column_keeps_maps {κ : Type} (t : Table κ) (name : String)
    (h : name ∈ t.field_names) :
    (del_column t name).2 = none ∧
    (del_column t name).1.field_names = t.field_names.erase name ∧
    (t.field_names.Nodup → name ∉ (del_column t name).1.field_names) ∧
    (del_column t name).1.rows =
      t.rows.map (fun row => row.eraseIdx (t.field_names.indexOf name)) ∧
    (del_column t name).1.align = t.align ∧
    (del_column t name).1.valign = t.valign ∧
    (del_column t name).1.min_width = t.min_width ∧
    (del_column t name).1.max_width = t.max_width ∧
    (del_column t name).1.int_format = t.int_format ∧
    (del_column t name).1.float_format = t.float_format ∧
    (del_column t name).1.custom_format = t.custom_format ∧
    (del_column t name).1.none_format = t.none_format := by
  have hne : ¬ name ∉ t.field_names := fun hc => hc h
  have hdel : del_column t name =
      ({t with field_names := t.field_names.eraseIdx (t.field_names.indexOf name),
               rows := t.rows.map (fun r => r.eraseIdx (t.field_names.indexOf name))}, none) := by
    unfold del_column
    rw [if_neg hne]
  rw [hdel]
  refine ⟨rfl, ?_, ?_, rfl, rfl, rfl, rfl, rfl, rfl, rfl, rfl, rfl⟩
  · exact List.eraseIdx_indexOf_eq_erase name t.field_names
  · intro hnd
    show name ∉ t.field_names.eraseIdx (t.field_names.indexOf name)
    rw [List.eraseIdx_indexOf_eq_erase name t.field_names]
    exact hnd.not_mem_erase

/-- Witness for `C5_del_column_keeps_maps` at the scenario table and
column `"B"`. -/
theorem C5_del_column_keeps_maps_witness :
    "B" ∈ c1table.field_names ∧
    ((del_column c1table "B").2 = none ∧
     (del_column c1table "B").1.field_names = c1table.field_names.erase "B" ∧
     (c1table.field_names.Nodup → "B" ∉ (del_column c1table "B").1.field_names) ∧
     (del_column c1table "B").1.rows =
       c1table.rows.map (fun row => row.eraseIdx (c1table.field_names.indexOf "B")) ∧
     (del_column c1table "B").1.align = c1table.align ∧
     (del_column c1table "B").1.valign = c1table.valign ∧
     (del_column c1table "B").1.min_width = c1table.min_width ∧
     (del_column c1table "B").1.max_width = c1table.max_width ∧
     (del_column c1table "B").1.int_format = c1table.int_format ∧
     (del_column c1table "B").1.float_format = c1table.float_format ∧
     (del_column c1table "B").1.custom_format = c1table.custom_format ∧
     (del_column c1table "B").1.none_format = c1table.none_format) :=
  ⟨by decide, C5_del_column_keeps_maps c1table "B" (by decide)⟩

/-! ## C4: preset styles and `set_style` -/

/-- The style state that `_set_default_style` resets: header/border
flags, rule styles, paddings, and all rule/junction characters. -/
structure StyleState where
  header : Bool
  border : Bool
  hrules : HRuleStyle
  vrules : VRuleStyle
  padding_width : Nat
  left_padding_width : Option Nat
  right_padding_width : Option Nat
  vertical_char : Char
  horizontal_char : Char
  horizontal_align_char : Option Char
  junction_char : Char
  top_junction_char : Option Char
  bottom_junction_char : Option Char
  right_junction_char : Option Char
  left_junction_char : Option Char
  top_right_junction_char : Option Char
  top_left_junction_char : Option Char
  bottom_right_junction_char : Option Char
  bottom_left_junction_char : Option Char
deriving DecidableEq, Repr

/-- Project the fields reset by `_set_default_style` out of a table. -/
def styleState (t : Table κ) : StyleState :=
  { header := t.header, border := t.border, hrules := t.hrules, vrules := t.vrules,
    padding_width := t.padding_width,
    left_padding_width := t.left_padding_width,
    right_padding_width := t.right_padding_width,
    vertical_char := t.vertical_char, horizontal_char := t.horizontal_char,
    horizontal_align_char := t.horizontal_align_char,
    junction_char := t.junction_char,
    top_junction_char := t.top_junction_char,
    bottom_junction_char := t.bottom_junction_char,
    right_junction_char := t.right_junction_char,
    left_junction_char := t.left_junction_char,
    top_right_junction_char := t.top_right_junction_char,
    top_left_junction_char := t.top_left_junction_char,
    bottom_right_junction_char := t.bottom_right_junction_char,
    bottom_left_junction_char := t.bottom_left_junction_char }

/-- A fixed value for the random draws (only `RANDOM` reads them). -/
def dummyDraws : RandomDraws :=
  ⟨true, true, .FRAME, .ALL, 1, 1, '|', '-', '+', false⟩

/-- C4 counterexample: `set_style(ORGMODE)` latches the `orgmode` flag,
which `_set_default_style` never resets, so a following
`set_style(DEFAULT)` leaves a state different from `set_style(DEFAULT)`
alone — visibly so: the rendered grid still has its outer border
characters replaced by `|`. -/
theorem C4_counterexample :
    (set_style (set_style c1table .ORGMODE dummyDraws) .DEFAULT dummyDraws).orgmode = true ∧
    (set_style c1table .DEFAULT dummyDraws).orgmode = false ∧
    set_style (set_style c1table .ORGMODE dummyDraws) .DEFAULT dummyDraws ≠
      set_style c1table .DEFAULT dummyDraws ∧
    get_string (set_style (set_style c1table .ORGMODE dummyDraws) .DEFAULT dummyDraws) =
      "|---+---|\n| A | B |\n|---+---|\n| 1 | 2 |\n| 3 | 4 |\n|---+---|" ∧
    get_string (set_style c1table .DEFAULT dummyDraws) =
      "+---+---+\n| A | B |\n+---+---+\n| 1 | 2 |\n| 3 | 4 |\n+---+---+" := by
  refine ⟨rfl, rfl, ?_, by decide, by decide⟩
  intro hc
  have horg := congrArg Table.orgmode hc
  simp only [set_style, _set_default_style, _set_orgmode_style] at horg
  rw [show c1table.orgmode = false from by decide] at horg
  exact absurd horg (by decide)

/-- C4 amended: for non-`RANDOM` presets, each `set_style` first resets
the header/border/rule/padding/character state to the default and then
applies the preset's overrides, so that state after
`set_style(s1); set_style(s2)` equals the state after `set_style(s2)`
alone; the full table state is moreover equal unless `s1` is `ORGMODE`,
whose `orgmode` flag (and, for `RANDOM`, the `preserve_internal_border`
flag) is not part of the reset and persists across later calls. -/
theorem C4_set_style_resets {κ : Type} (t : Table κ) (s1 s2 : TableStyle)
    (d1 d2 : RandomDraws) (h1 : s1 ≠ .RANDOM) (h2 : s2 ≠ .RANDOM) :
    styleState (set_style (set_style t s1 d1) s2 d2) =
      styleState (set_style t s2 d2) ∧
    (s1 ≠ .ORGMODE →
      set_style (set_style t s1 d1) s2 d2 = set_style t s2 d2) := by
  constructor
  · cases s1 <;> cases s2 <;>
      first
      | exact absurd rfl h1
      | exact absurd rfl h2
      | rfl
  · intro h3
    cases s1 <;> cases s2 <;>
      first
      | exact absurd rfl h1
      | exact absurd rfl h2
      | exact absurd rfl h3
      | rfl

/-- Witness for `C4_set_style_resets` at `s1 = DOUBLE_BORDER`,
`s2 = MARKDOWN`. -/
theorem C4_set_style_resets_witness :
    (TableStyle.DOUBLE_BORDER ≠ TableStyle.RANDOM) ∧
    (TableStyle.MARKDOWN ≠ TableStyle.RANDOM) ∧
    (styleState (set_style (set_style c1table .DOUBLE_BORDER dummyDraws) .MARKDOWN dummyDraws) =
      styleState (set_style c1table .MARKDOWN dummyDraws) ∧
    (TableStyle.DOUBLE_BORDER ≠ TableStyle.ORGMODE →
      set_style (set_style c1table .DOUBLE_BORDER dummyDraws) .MARKDOWN dummyDraws =
        set_style c1table .MARKDOWN dummyDraws)) :=
  ⟨by decide, by decide,
   C4_set_style_resets c1table .DOUBLE_BORDER .MARKDOWN dummyDraws dummyDraws
     (by decide) (by decide)⟩

/-! ## C10: the dividers/rows alignment invariant -/

/-- The store invariant: one divider flag per row. -/
def dividersAligned (t : Table κ) : Prop :=
  t.dividers.length = t.rows.length

@[simp] theorem set_align_rows (t : Table κ) (v : Option Align) :
    (set_align t v).rows = t.rows := by
  unfold set_align; cases v <;> split_ifs <;> rfl

@[simp] theorem set_align_dividers (t : Table κ) (v : Option Align) :
    (set_align t v).dividers = t.dividers := by
  unfold set_align; cases v <;> split_ifs <;> rfl

@[simp] theorem set_valign_rows (t : Table κ) (v : Option VAlign) :
    (set_valign t v).rows = t.rows := by
  unfold set_valign; cases v <;> split_ifs <;> rfl

@[simp] theorem set_valign_dividers (t : Table κ) (v : Option VAlign) :
    (set_valign t v).dividers = t.dividers := by
  unfold set_valign; cases v <;> split_ifs <;> rfl

@[simp] theorem set_max_width_rows (t : Table κ) (v : Option Nat) :
    (set_max_width t v).rows = t.rows := by
  unfold set_max_width; split_ifs <;> rfl

@[simp] theorem set_max_width_dividers (t : Table κ) (v : Option Nat) :
    (set_max_width t v).dividers = t.dividers := by
  unfold set_max_width; split_ifs <;> rfl

@[simp] theorem set_min_width_rows (t : Table κ) (v : Option Nat) :
    (set_min_width t v).rows = t.rows := by
  unfold set_min_width; split_ifs <;> rfl

@[simp] theorem set_min_width_dividers (t : Table κ) (v : Option Nat) :
    (set_min_width t v).dividers = t.dividers := by
  unfold set_min_width; split_ifs <;> rfl

@[simp] theorem set_int_format_rows (t : Table κ) (v : Option String) :
    (set_int_format t v).rows = t.rows := by
  unfold set_int_format; split_ifs <;> rfl

@[simp] theorem set_int_format_dividers (t : Table κ) (v : Option String) :
    (set_int_format t v).dividers = t.dividers := by
  unfold set_int_format; split_ifs <;> rfl

@[simp] theorem set_float_format_rows (t : Table κ) (v : Option String) :
    (set_float_format t v).rows = t.rows := by
  unfold set_float_format; split_ifs <;> rfl

@[simp] theorem set_float_format_dividers (t : Table κ) (v : Option String) :
    (set_float_format t v).dividers = t.dividers := by
  unfold set_float_format; split_ifs <;> rfl

@[simp] theorem set_custom_format_rows (t : Table κ) (v : Option (String → Val → String)) :
    (set_custom_format t v).rows = t.rows := by
  unfold set_custom_format; cases v <;> rfl

@[simp] theorem set_custom_format_dividers (t : Table κ)
    (v : Option (String → Val → String)) :
    (set_custom_format t v).dividers = t.dividers := by
  unfold set_custom_format; cases v <;> rfl

@[simp] theorem set_none_format_rows (t : Table κ) (v : Option String) :
    (set_none_format t v).rows = t.rows := by
  unfold set_none_format; split_ifs <;> rfl

@[simp] theorem set_none_format_dividers (t : Table κ) (v : Option String) :
    (set_none_format t v).dividers = t.dividers := by
  unfold set_none_format; split_ifs <;> rfl

@[simp] theorem _column_specific_args_rows (t : Table κ) :
    (_column_specific_args t).rows = t.rows := by
  unfold _column_specific_args; simp

@[simp] theorem _column_specific_args_dividers (t : Table κ) :
    (_column_specific_args t).dividers = t.dividers := by
  unfold _column_specific_args; simp

/-- The `field_names` setter never touches rows or dividers (on its
error paths it returns the table unchanged). -/
@[simp] theorem set_field_names_apply_rows (t : Table κ) (v : List String) :
    (set_field_names_apply t v).rows = t.rows := by
  unfold set_field_names_apply
  by_cases hfn : t.field_names ≠ [] <;> simp [hfn] <;> split_ifs <;> simp

@[simp] theorem set_field_names_apply_dividers (t : Table κ) (v : List String) :
    (set_field_names_apply t v).dividers = t.dividers := by
  unfold set_field_names_apply
  by_cases hfn : t.field_names ≠ [] <;> simp [hfn] <;> split_ifs <;> simp

theorem set_field_names_keeps (t : Table κ) (v : List String) :
    (set_field_names t v).1.rows = t.rows ∧
    (set_field_names t v).1.dividers = t.dividers := by
  unfold set_field_names
  split_ifs <;> simp

theorem add_row_aligned (t : Table κ) (row : List Val) (d : Bool)
    (h : dividersAligned t) : dividersAligned (add_row t row d).1 := by
  unfold dividersAligned at h ⊢
  unfold add_row
  split_ifs with h1 h2
  · exact h
  · rcases hs : set_field_names t ((List.range row.length).map
        (fun n => "Field " ++ toString (n + 1))) with ⟨t1, e⟩
    have hk := set_field_names_keeps t ((List.range row.length).map
        (fun n => "Field " ++ toString (n + 1)))
    rw [hs] at hk
    simp only [] at hk
    cases e with
    | some msg =>
      simp only [hs]
      rw [hk.1, hk.2]
      exact h
    | none =>
      simp only [hs, List.length_append, List.length_singleton, hk.1, hk.2]
      omega
  · simp only [List.length_append, List.length_singleton]
    omega

theorem add_rows_loop_aligned (rs : List (List Val)) (t : Table κ)
    (h : dividersAligned t) : dividersAligned (add_rows_loop t rs).1 := by
  induction rs generalizing t with
  | nil => exact h
  | cons r rest ih =>
    unfold add_rows_loop
    rcases ha : add_row t r false with ⟨t', e⟩
    have h' : dividersAligned t' := by
      have := add_row_aligned t r false h
      rwa [ha] at this
    cases e with
    | some msg => exact h'
    | none => exact ih t' h'

theorem add_rows_aligned (t : Table κ) (rs : List (List Val)) (d : Bool)
    (h : dividersAligned t) : dividersAligned (add_rows t rs d).1 := by
  unfold add_rows
  rcases hl : add_rows_loop t rs.dropLast with ⟨t', e⟩
  have h' : dividersAligned t' := by
    have := add_rows_loop_aligned rs.dropLast t h
    rwa [hl] at this
  cases e with
  | some msg => exact h'
  | none =>
    cases rs.getLast? with
    | some lastRow => exact add_row_aligned t' lastRow d h'
    | none => exact h'

theorem del_row_aligned (t : Table κ) (i : Int) (h : dividersAligned t) :
    dividersAligned (del_row t i).1 := by
  unfold del_row
  split_ifs with h1 h2 <;>
    first
    | exact h
    | · unfold dividersAligned at h ⊢
        simp only [List.length_eraseIdx]
        rw [h]

theorem add_column_cells_aligned (col : List Val) (i : Nat) (t : Table κ)
    (h : dividersAligned t) : dividersAligned (add_column_cells t col i) := by
  induction col generalizing t i with
  | nil => exact h
  | cons v vs ih =>
    unfold add_column_cells
    apply ih
    unfold dividersAligned at h
    split_ifs with h1
    · simp only [dividersAligned, List.length_append, List.length_set,
        List.length_singleton]
      omega
    · simp only [dividersAligned, List.length_set]
      exact h

theorem add_column_aligned (t : Table κ) (f : String) (col : List Val)
    (a : Align) (v : VAlign) (h : dividersAligned t) :
    dividersAligned (add_column t f col a v).1 := by
  unfold add_column
  split_ifs with h1
  · exact add_column_cells_aligned col 0 _ h
  · exact h

theorem add_autoindex_aligned (t : Table κ) (f : String) (h : dividersAligned t) :
    dividersAligned (add_autoindex t f) := by
  simpa [add_autoindex, dividersAligned] using h

theorem del_column_aligned (t : Table κ) (f : String) (h : dividersAligned t) :
    dividersAligned (del_column t f).1 := by
  unfold del_column
  split_ifs with h1 <;>
    first
    | exact h
    | simpa [dividersAligned] using h

theorem add_divider_aligned (t : Table κ) (h : dividersAligned t) :
    dividersAligned (add_divider t) := by
  unfold add_divider
  split_ifs with h1
  · unfold dividersAligned at h ⊢
    simp only [List.length_append, List.length_dropLast, List.length_singleton]
    omega
  · exact h

/-- C10: every public mutating operation (`add_row`, `add_rows`,
`del_row`, `add_column`, `add_autoindex`, `del_column`, `add_divider`,
`clear_rows`, `clear`) preserves the invariant that the dividers
sequence has exactly the length of the rows sequence — on success and on
every error path. -/
theorem C10_mutators_preserve_dividers_invariant {κ : Type} :
    (∀ (t : Table κ) row d, dividersAligned t → dividersAligned (add_row t row d).1) ∧
    (∀ (t : Table κ) rs d, dividersAligned t → dividersAligned (add_rows t rs d).1) ∧
    (∀ (t : Table κ) (i : Int), dividersAligned t → dividersAligned (del_row t i).1) ∧
    (∀ (t : Table κ) f col a v, dividersAligned t →
      dividersAligned (add_column t f col a v).1) ∧
    (∀ (t : Table κ) f, dividersAligned t → dividersAligned (add_autoindex t f)) ∧
    (∀ (t : Table κ) f, dividersAligned t → dividersAligned (del_column t f).1) ∧
    (∀ t : Table κ, dividersAligned t → dividersAligned (add_divider t)) ∧
    (∀ t : Table κ, dividersAligned t → dividersAligned (clear_rows t)) ∧
    (∀ t : Table κ, dividersAligned t → dividersAligned (clear t)) :=
  ⟨fun t row d h => add_row_aligned t row d h,
   fun t rs d h => add_rows_aligned t rs d h,
   fun t i h => del_row_aligned t i h,
   fun t f col a v h => add_column_aligned t f col a v h,
   fun t f h => add_autoindex_aligned t f h,
   fun t f h => del_column_aligned t f h,
   fun t h => add_divider_aligned t h,
   fun _ _ => rfl,
   fun _ _ => rfl⟩

/-- Witness for `C10_mutators_preserve_dividers_invariant` at the
scenario table (each conjunct instantiated, hypotheses discharged by
evaluation). -/
theorem C10_mutators_witness :
    dividersAligned c1table ∧
    dividersAligned (add_row c1table [Val.s "5", Val.s "6"] true).1 ∧
    dividersAligned (add_rows c1table [[Val.s "5", Val.s "6"]] false).1 ∧
    dividersAligned (del_row c1table 0).1 ∧
    dividersAligned (add_column c1table "C" [Val.s "7", Val.s "8"] .c .t).1 ∧
    dividersAligned (add_autoindex c1table "Index") ∧
    dividersAligned (del_column c1table "A").1 ∧
    dividersAligned (add_divider c1table) ∧
    dividersAligned (clear_rows c1table) ∧
    dividersAligned (clear c1table) := by
  have hinv : dividersAligned c1table := by
    unfold dividersAligned
    decide
  obtain ⟨h1, h2, h3, h4, h5, h6, h7, h8, h9⟩ :=
    @C10_mutators_preserve_dividers_invariant (List Val)
  exact ⟨hinv, h1 c1table [Val.s "5", Val.s "6"] true hinv,
    h2 c1table [[Val.s "5", Val.s "6"]] false hinv,
    h3 c1table 0 hinv, h4 c1table "C" [Val.s "7", Val.s "8"] .c .t hinv,
    h5 c1table "Index" hinv, h6 c1table "A" hinv, h7 c1table hinv,
    h8 c1table hinv, h9 c1table hinv⟩

/-! ## C8: `max_table_width` shrinking -/

/-- A one-column table whose natural width (24) exceeds its
`max_table_width` of 10: the header is 20 columns wide, the single cell
is `"x"`. -/
def t8table : Table (List Val) :=
  let t0 := PrettyTable_new ["AAAAAAAAAAAAAAAAAAAA"]
  let t1 := (add_row t0 [Val.s "x"] false).1
  {t1 with max_table_width := some 10}

/-- C8 counterexample: the shrink phase reduces the column (20 → 7,
≥ 1 as claimed), but the scaling budget `markup_chars` counts only
padding and interior junctions, not the outer frame, so every rendered
line has display width 11 > `max_table_width` = 10: the claimed bound on
the rendered width is false. -/
theorem C8_counterexample :
    t8table.max_table_width = some 10 ∧
    _compute_table_width t8table (getOptions t8table)
      (_compute_widths_pre t8table (getOptions t8table)
        (_format_rows t8table (_get_rows t8table (getOptions t8table)))) = 24 ∧
    _compute_widths t8table (getOptions t8table)
      (_format_rows t8table (_get_rows t8table (getOptions t8table))) = [7] ∧
    (strSplit '\n' (get_string t8table)).map _str_block_width = [11, 11, 11, 11, 11] ∧
    ¬ (∀ line ∈ strSplit '\n' (get_string t8table),
        _str_block_width line ≤ t8table.max_table_width.getD 0) := by
  refine ⟨rfl, by decide, by decide, by decide, by decide⟩

theorem shrunkWidth_pos (M markup T w : Nat) : 1 ≤ shrunkWidth M markup T w :=
  le_max_left 1 _

theorem shrunkWidth_le (M markup T w : Nat) (h : M ≤ T) :
    shrunkWidth M markup T w ≤ max w 1 := by
  unfold shrunkWidth
  have hd : w * (M - markup) / (T - markup) ≤ w := by
    rcases Nat.eq_zero_or_pos (T - markup) with h0 | h0
    · simp [h0]
    · calc w * (M - markup) / (T - markup)
          ≤ w * (T - markup) / (T - markup) :=
            Nat.div_le_div_right (Nat.mul_le_mul_left w (by omega))
        _ = w := Nat.mul_div_cancel w h0
  omega

theorem shrunkWidth_lt (M markup T w : Nat) (h : M < T) (hw : 2 ≤ w) :
    shrunkWidth M markup T w < w := by
  unfold shrunkWidth
  have hd : w * (M - markup) / (T - markup) < w := by
    rcases Nat.eq_zero_or_pos (T - markup) with h0 | h0
    · simp [h0]; omega
    · rw [Nat.div_lt_iff_lt_mul h0]
      have hlt : M - markup < T - markup := by omega
      exact mul_lt_mul_of_pos_left hlt (by omega)
  omega

/-- C8 amended: when `max_table_width` is set, the computed table width
exceeds it (the source's shrink trigger — for `vrules ≠ ALL` this
undercounts the frame by one), and neither `min_table_width` nor a title
re-grows the widths, the shrink phase keeps every column width at least
1 character, never above the larger of 1 and its seeded width, and
strictly below any seeded width of at least 2 — but the rendered line
width is *not* bounded by `max_table_width` (see the counterexample). -/
theorem C8_shrink_floor_one {κ : Type} (t : Table κ) (options : Options κ)
    (rows : List (List String))
    (hM : truthyNat t.max_table_width = true)
    (hgrow : truthyNat t.min_table_width = false)
    (htitle : truthyStr options.title = false)
    (hT : _compute_table_width t options (_compute_widths_pre t options rows) >
      t.max_table_width.getD 0) :
    (_compute_widths t options rows).length =
      (_compute_widths_pre t options rows).length ∧
    ∀ i, i < (_compute_widths_pre t options rows).length →
      1 ≤ (_compute_widths t options rows).getD i 0 ∧
      (_compute_widths t options rows).getD i 0 ≤
        max ((_compute_widths_pre t options rows).getD i 0) 1 ∧
      (2 ≤ (_compute_widths_pre t options rows).getD i 0 →
        (_compute_widths t options rows).getD i 0 <
          (_compute_widths_pre t options rows).getD i 0) := by
  set pre := _compute_widths_pre t options rows with hpre
  set M := t.max_table_width.getD 0 with hMdef
  set T := _compute_table_width t options pre with hTdef
  set markup := ((_get_padding_widths options).1 + (_get_padding_widths options).2) *
    pre.length + pre.length - 1 with hmarkup
  have heq : _compute_widths t options rows = pre.map (shrunkWidth M markup T) := by
    unfold _compute_widths _compute_widths_from
    rw [← hpre]
    simp only [hM, hgrow, htitle, if_true, Bool.false_eq_true, or_self, if_false,
      ← hMdef, ← hTdef]
    rw [if_pos hT]
  rw [heq]
  constructor
  · exact List.length_map pre _
  · intro i hi
    have hgetD : (pre.map (shrunkWidth M markup T)).getD i 0 =
        shrunkWidth M markup T (pre.getD i 0) := by
      rw [List.getD_eq_getElem?_getD, List.getD_eq_getElem?_getD,
        List.getElem?_map]
      rw [List.getElem?_eq_getElem hi]
      rfl
    rw [hgetD]
    exact ⟨shrunkWidth_pos _ _ _ _, shrunkWidth_le _ _ _ _ hT.le,
      fun h2 => shrunkWidth_lt _ _ _ _ hT h2⟩

/-- Witness for `C8_shrink_floor_one` at the counterexample table. -/
theorem C8_shrink_floor_one_witness :
    truthyNat t8table.max_table_width = true ∧
    truthyNat t8table.min_table_width = false ∧
    truthyStr (getOptions t8table).title = false ∧
    _compute_table_width t8table (getOptions t8table)
        (_compute_widths_pre t8table (getOptions t8table)
          (_format_rows t8table (_get_rows t8table (getOptions t8table)))) >
      t8table.max_table_width.getD 0 ∧
    (∀ i, i < (_compute_widths_pre t8table (getOptions t8table)
        (_format_rows t8table (_get_rows t8table (getOptions t8table)))).length →
      1 ≤ (_compute_widths t8table (getOptions t8table)
        (_format_rows t8table (_get_rows t8table (getOptions t8table)))).getD i 0) := by
  refine ⟨by decide, by decide, by decide, by decide, ?_⟩
  intro i hi
  exact ((C8_shrink_floor_one t8table (getOptions t8table)
    (_format_rows t8table (_get_rows t8table (getOptions t8table)))
    (by decide) (by decide) (by decide) (by decide)).2 i hi).1

/-! ## C9: sort stability and the decorated sort key -/

/-- Two rows with equal sort-column values (`"b"`) but different second
cells, sorted by field `"A"` under the default identity key. -/
def t9table : Table (List Val) :=
  let t0 := PrettyTable_new ["A", "B"]
  let t1 := (add_row t0 [Val.s "b", Val.s "z"] false).1
  let t2 := (add_row t1 [Val.s "b", Val.s "a"] false).1
  {t2 with sortby := some "A"}

/-- C9 counterexample: the key function receives the *decorated* row
(`[row[sortindex]] + row`), not the bare column value; with the default
identity key the two rows — whose sort-column values are equal — are
tie-broken by their remaining cells and swap: the rendered order is not
the original relative order. -/
theorem C9_counterexample :
    t9table.rows = [[Val.s "b", Val.s "z"], [Val.s "b", Val.s "a"]] ∧
    t9table.rows.map (fun r => r.getD 0 (Val.s "")) = [Val.s "b", Val.s "b"] ∧
    t9table.sortby = some "A" ∧
    _get_rows t9table (getOptions t9table) =
      [[Val.s "b", Val.s "a"], [Val.s "b", Val.s "z"]] ∧
    _get_rows t9table (getOptions t9table) ≠ t9table.rows := by
  refine ⟨by decide, by decide, rfl, by decide, by decide⟩

theorem pyInsert_cons {α : Type} (lt : κ → κ → Bool) (key : α → κ) (x y : α)
    (ys : List α) :
    pyInsert lt key x (y :: ys) =
      if lt (key y) (key x) then y :: pyInsert lt key x ys else x :: y :: ys := rfl

theorem pyInsert_mem {α : Type} (lt : κ → κ → Bool) (key : α → κ) (x y : α)
    (l : List α) (h : y ∈ pyInsert lt key x l) : y = x ∨ y ∈ l := by
  induction l with
  | nil => simpa [pyInsert] using h
  | cons z zs ih =>
    rw [pyInsert_cons] at h
    by_cases hc : lt (key z) (key x)
    · rw [if_pos hc] at h
      rcases List.mem_cons.mp h with h | h
      · exact Or.inr (by simp [h])
      · rcases ih h with h' | h'
        · exact Or.inl h'
        · exact Or.inr (by simp [h'])
    · rw [if_neg hc] at h
      simpa using h

theorem pySortAsc_mem {α : Type} (lt : κ → κ → Bool) (key : α → κ) (y : α)
    (l : List α) (h : y ∈ pySortAsc lt key l) : y ∈ l := by
  induction l with
  | nil => simp [pySortAsc] at h
  | cons x xs ih =>
    unfold pySortAsc at h
    rcases pyInsert_mem lt key x y _ h with h' | h'
    · simp [h']
    · simp [ih h']

theorem pySort_mem {α : Type} (lt : κ → κ → Bool) (key : α → κ) (reverse : Bool)
    (y : α) (l : List α) (h : y ∈ pySort lt key reverse l) : y ∈ l := by
  unfold pySort at h
  split_ifs at h
  · exact pySortAsc_mem _ key y l h
  · exact pySortAsc_mem lt key y l h

theorem pyInsert_filter_pos {α : Type} [DecidableEq κ] (lt : κ → κ → Bool)
    (key : α → κ) (c : κ) (x : α) (l : List α)
    (hx : key x = c) (hirr : lt c c = false) :
    (pyInsert lt key x l).filter (fun a => decide (key a = c)) =
      x :: l.filter (fun a => decide (key a = c)) := by
  induction l with
  | nil => simp [pyInsert, hx]
  | cons y ys ih =>
    rw [pyInsert_cons]
    by_cases hc : lt (key y) (key x)
    · rw [if_pos hc]
      have hy : ¬ key y = c := by
        intro hyc
        rw [hyc, hx, hirr] at hc
        exact Bool.false_ne_true hc
      rw [List.filter_cons_of_neg (by simpa using hy), ih,
        List.filter_cons_of_neg (by simpa using hy)]
    · rw [if_neg hc]
      rw [List.filter_cons_of_pos (by simpa using hx)]

theorem pyInsert_filter_neg {α : Type} [DecidableEq κ] (lt : κ → κ → Bool)
    (key : α → κ) (c : κ) (x : α) (l : List α) (hx : ¬ key x = c) :
    (pyInsert lt key x l).filter (fun a => decide (key a = c)) =
      l.filter (fun a => decide (key a = c)) := by
  induction l with
  | nil => simp [pyInsert, hx]
  | cons y ys ih =>
    rw [pyInsert_cons]
    by_cases hc : lt (key y) (key x)
    · rw [if_pos hc]
      by_cases hy : key y = c
      · rw [List.filter_cons_of_pos (by simpa using hy), ih,
          List.filter_cons_of_pos (by simpa using hy)]
      · rw [List.filter_cons_of_neg (by simpa using hy), ih,
          List.filter_cons_of_neg (by simpa using hy)]
    · rw [if_neg hc]
      rw [List.filter_cons_of_neg (by simpa using hx)]

theorem pySortAsc_filter {α : Type} [DecidableEq κ] (lt : κ → κ → Bool)
    (key : α → κ) (c : κ) (hirr : lt c c = false) (l : List α) :
    (pySortAsc lt key l).filter (fun a => decide (key a = c)) =
      l.filter (fun a => decide (key a = c)) := by
  induction l with
  | nil => rfl
  | cons x xs ih =>
    unfold pySortAsc
    by_cases hx : key x = c
    · rw [pyInsert_filter_pos lt key c x _ hx hirr, ih,
        List.filter_cons_of_pos (by simpa using hx)]
    · rw [pyInsert_filter_neg lt key c x _ hx, ih,
        List.filter_cons_of_neg (by simpa using hx)]

/-- Python's stable sort preserves the subsequence of elements whose key
equals any fixed value `c` on which the comparison is irreflexive — for
both sort directions. -/
theorem pySort_filter {α : Type} [DecidableEq κ] (lt : κ → κ → Bool)
    (key : α → κ) (reverse : Bool) (c : κ) (hirr : lt c c = false) (l : List α) :
    (pySort lt key reverse l).filter (fun a => decide (key a = c)) =
      l.filter (fun a => decide (key a = c)) := by
  unfold pySort
  split_ifs
  · exact pySortAsc_filter (fun a b => lt b a) key c hirr l
  · exact pySortAsc_filter lt key c hirr l

/-- C9 amended: the sort step of `_get_rows` is a stable sort whose key
function is applied to the *decorated* row (the sort column's value
prepended to the whole row): the subsequence of selected rows whose
decorated rows map to any fixed key value (with the comparison
irreflexive there) is preserved verbatim, for either sort direction.
Rows that agree only in the sort column get tie-broken by the rest of
the decorated row under the default identity key (see the
counterexample). -/
theorem C9_sort_stable_on_decorated_keys {κ : Type} [DecidableEq κ]
    (t : Table κ) (options : Options κ) (rows : List (List Val)) (c : κ)
    (hirr : t.klt c c = false) :
    (sortPhase t options rows).filter
        (fun row => decide (options.sort_key (decorateRow t options row) = c)) =
      rows.filter
        (fun row => decide (options.sort_key (decorateRow t options row) = c)) := by
  unfold sortPhase
  split_ifs with hs
  · rw [List.filter_map]
    have hcongr : (pySort t.klt options.sort_key options.reversesort
          (rows.map (decorateRow t options))).filter
        ((fun row => decide (options.sort_key (decorateRow t options row) = c)) ∘
          (fun row => row.tail)) =
        (pySort t.klt options.sort_key options.reversesort
          (rows.map (decorateRow t options))).filter
        (fun drow => decide (options.sort_key drow = c)) := by
      apply List.filter_congr
      intro drow hmem
      have hmem' := pySort_mem t.klt options.sort_key options.reversesort drow _ hmem
      rcases List.mem_map.mp hmem' with ⟨r, _, hr⟩
      subst hr
      rfl
    rw [hcongr, pySort_filter t.klt options.sort_key options.reversesort c hirr,
      List.filter_map, List.map_map]
    refine Eq.trans (List.map_congr_left ?_) (List.map_id _)
    intro r _
    rfl
  · rfl

/-- Witness for `C9_sort_stable_on_decorated_keys` at the counterexample
table with the decorated key of its first row. -/
theorem C9_sort_stable_witness :
    t9table.klt [Val.s "b", Val.s "b", Val.s "z"] [Val.s "b", Val.s "b", Val.s "z"] = false ∧
    (sortPhase t9table (getOptions t9table) t9table.rows).filter
        (fun row => decide ((getOptions t9table).sort_key
          (decorateRow t9table (getOptions t9table) row) =
            [Val.s "b", Val.s "b", Val.s "z"])) =
      t9table.rows.filter
        (fun row => decide ((getOptions t9table).sort_key
          (decorateRow t9table (getOptions t9table) row) =
            [Val.s "b", Val.s "b", Val.s "z"])) :=
  ⟨by decide,
   C9_sort_stable_on_decorated_keys t9table (getOptions t9table) t9table.rows
     [Val.s "b", Val.s "b", Val.s "z"] (by decide)⟩

/-! ## C7: monotonicity of the computed column width in one cell -/

theorem getD_set_self (l : List Nat) (i x : Nat) (h : i < l.length) :
    (l.set i x).getD i 0 = x := by
  simp [List.getD_eq_getElem?_getD, List.getElem?_set_self, h]

theorem getD_set_ne (l : List Nat) (i j x : Nat) (hne : j ≠ i) :
    (l.set i x).getD j 0 = l.getD j 0 := by
  simp [List.getD_eq_getElem?_getD, List.getElem?_set_ne (fun hc => hne hc.symm)]

/-- Monotonicity of one cell visit's width update, in the running width
and — when no `none_format` substitution can fire for the column — in
the cell's display width. -/
theorem cellUpdate_mono (t : Table κ) (idx : Nat) (w0 w0' : Nat) (v v' : String)
    (hw : w0 ≤ w0')
    (hval : v = v' ∨
      ((alGet t.none_format (t.field_names.getD idx "")).join = none ∧
        (_get_size v).1 ≤ (_get_size v').1)) :
    cellUpdate t idx w0 v ≤ cellUpdate t idx w0' v' := by
  unfold cellUpdate
  rcases hval with rfl | ⟨hnf, hsz⟩
  · simp only []
    cases alGet t.max_width (t.field_names.getD idx "") <;>
      cases alGet t.min_width (t.field_names.getD idx "") <;>
      split_ifs <;>
      (try cases (alGet t.align (t.field_names.getD idx "")).getD Align.c) <;>
      dsimp only <;>
      first
      | exact sup_le_sup hw le_rfl
      | exact sup_le_sup (sup_le_sup hw le_rfl) le_rfl
      | exact sup_le_sup le_rfl (sup_le_sup hw le_rfl)
      | exact sup_le_sup le_rfl (sup_le_sup (sup_le_sup hw le_rfl) le_rfl)
  · simp only [hnf, Option.isSome_none, Bool.false_eq_true, and_false, if_false]
    cases alGet t.max_width (t.field_names.getD idx "") <;>
      cases alGet t.min_width (t.field_names.getD idx "") <;>
      split_ifs <;>
      (try cases (alGet t.align (t.field_names.getD idx "")).getD Align.c) <;>
      dsimp only <;>
      first
      | exact sup_le_sup hw hsz
      | exact sup_le_sup hw (inf_le_inf hsz le_rfl)
      | exact sup_le_sup (sup_le_sup hw hsz) le_rfl
      | exact sup_le_sup (sup_le_sup hw (inf_le_inf hsz le_rfl)) le_rfl
      | exact sup_le_sup le_rfl (sup_le_sup hw hsz)
      | exact sup_le_sup le_rfl (sup_le_sup hw (inf_le_inf hsz le_rfl))
      | exact sup_le_sup le_rfl (sup_le_sup (sup_le_sup hw hsz) le_rfl)
      | exact sup_le_sup le_rfl (sup_le_sup (sup_le_sup hw (inf_le_inf hsz le_rfl)) le_rfl)

/-- The relation carried through the seeding fold: equal lengths, equal
entries away from `idx`, and a no-smaller entry at `idx`. -/
def WRel (idx : Nat) (ws ws' : List Nat) : Prop :=
  ws.length = ws'.length ∧ (∀ j, j ≠ idx → ws.getD j 0 = ws'.getD j 0) ∧
    ws.getD idx 0 ≤ ws'.getD idx 0

theorem WRel_refl (idx : Nat) (ws : List Nat) : WRel idx ws ws :=
  ⟨rfl, fun _ _ => rfl, le_refl _⟩

/-- A cell visit with the same value at any position preserves `WRel`. -/
theorem cell_step_rel_samev (t : Table κ) (idx k : Nat) (v : String)
    (ws ws' : List Nat) (h : WRel idx ws ws') :
    WRel idx (_compute_widths_cell t ws k v) (_compute_widths_cell t ws' k v) := by
  obtain ⟨hlen, hne, hle⟩ := h
  unfold _compute_widths_cell
  refine ⟨by simp [List.length_set, hlen], ?_, ?_⟩
  · intro j hj
    by_cases hjk : j = k
    · subst hjk
      by_cases hk : j < ws.length
      · rw [getD_set_self _ _ _ hk, getD_set_self _ _ _ (hlen ▸ hk),
          hne j hj]
      · rw [List.set_eq_of_length_le (by omega), List.set_eq_of_length_le (by omega)]
        exact hne j hj
    · rw [getD_set_ne _ _ _ _ hjk, getD_set_ne _ _ _ _ hjk]
      exact hne j hj
  · by_cases hik : idx = k
    · subst hik
      by_cases hk : idx < ws.length
      · rw [getD_set_self _ _ _ hk, getD_set_self _ _ _ (hlen ▸ hk)]
        exact cellUpdate_mono t idx _ _ v v hle (Or.inl rfl)
      · rw [List.set_eq_of_length_le (by omega), List.set_eq_of_length_le (by omega)]
        exact hle
    · rw [getD_set_ne _ _ _ _ hik, getD_set_ne _ _ _ _ hik]
      exact hle

/-- A cell visit at the changed column preserves `WRel` when the new
value is at least as wide and `none_format` cannot fire there. -/
theorem cell_step_rel_idx (t : Table κ) (idx : Nat) (v v' : String)
    (ws ws' : List Nat) (h : WRel idx ws ws')
    (hnf : (alGet t.none_format (t.field_names.getD idx "")).join = none)
    (hsz : (_get_size v).1 ≤ (_get_size v').1) :
    WRel idx (_compute_widths_cell t ws idx v) (_compute_widths_cell t ws' idx v') := by
  obtain ⟨hlen, hne, hle⟩ := h
  unfold _compute_widths_cell
  refine ⟨by simp [List.length_set, hlen], ?_, ?_⟩
  · intro j hj
    rw [getD_set_ne _ _ _ _ hj, getD_set_ne _ _ _ _ hj]
    exact hne j hj
  · by_cases hk : idx < ws.length
    · rw [getD_set_self _ _ _ hk, getD_set_self _ _ _ (hlen ▸ hk)]
      exact cellUpdate_mono t idx _ _ v v' hle (Or.inr ⟨hnf, hsz⟩)
    · rw [List.set_eq_of_length_le (by omega), List.set_eq_of_length_le (by omega)]
      exact hle

theorem rowFoldFrom_cons (t : Table κ) (n : Nat) (ws : List Nat) (x : String)
    (xs : List String) :
    rowFoldFrom t n ws (x :: xs) =
      rowFoldFrom t (n + 1) (_compute_widths_cell t ws n x) xs := rfl

/-- Folding the same row over `WRel`-related width lists preserves the
relation. -/
theorem rowFoldFrom_rel_same (t : Table κ) (idx : Nat) (row : List String) :
    ∀ (n : Nat) (ws ws' : List Nat), WRel idx ws ws' →
      WRel idx (rowFoldFrom t n ws row) (rowFoldFrom t n ws' row) := by
  induction row with
  | nil => exact fun n ws ws' h => h
  | cons x xs ih =>
    intro n ws ws' h
    rw [rowFoldFrom_cons, rowFoldFrom_cons]
    exact ih (n + 1) _ _ (cell_step_rel_samev t idx n x ws ws' h)

/-- Folding a row against the same row with cell `p` replaced by a
no-narrower value preserves `WRel` at column `n + p`. -/
theorem rowFoldFrom_set (t : Table κ) (idx : Nat) (v' : String)
    (hnf : (alGet t.none_format (t.field_names.getD idx "")).join = none) :
    ∀ (row : List String) (p n : Nat) (ws ws' : List Nat), n + p = idx →
      (_get_size (row.getD p "")).1 ≤ (_get_size v').1 →
      WRel idx ws ws' →
      WRel idx (rowFoldFrom t n ws row) (rowFoldFrom t n ws' (row.set p v')) := by
  intro row
  induction row with
  | nil => exact fun p n ws ws' _ _ h => h
  | cons x xs ih =>
    intro p n ws ws' hpn hsz h
    cases p with
    | zero =>
      rw [List.set]
      rw [rowFoldFrom_cons, rowFoldFrom_cons]
      have hn : n = idx := by omega
      subst hn
      refine rowFoldFrom_rel_same t n xs (n + 1) _ _ ?_
      exact cell_step_rel_idx t n x v' ws ws' h hnf (by simpa using hsz)
    | succ q =>
      rw [List.set]
      rw [rowFoldFrom_cons, rowFoldFrom_cons]
      refine ih q (n + 1) _ _ (by omega) (by simpa using hsz) ?_
      exact cell_step_rel_samev t idx n x ws ws' h

/-- Folding the same batch of rows preserves `WRel`. -/
theorem rowsFold_rel_same (t : Table κ) (idx : Nat) (rows : List (List String)) :
    ∀ (ws ws' : List Nat), WRel idx ws ws' →
      WRel idx (rows.foldl (fun ws row => rowFoldFrom t 0 ws row) ws)
        (rows.foldl (fun ws row => rowFoldFrom t 0 ws row) ws') := by
  induction rows with
  | nil => exact fun ws ws' h => h
  | cons row rest ih =>
    intro ws ws' h
    exact ih _ _ (rowFoldFrom_rel_same t idx row 0 ws ws' h)

/-- Replacing cell `(r, idx)` by a no-narrower value relates the full
seeding folds. -/
theorem rowsFold_set (t : Table κ) (idx : Nat) (v' : String)
    (hnf : (alGet t.none_format (t.field_names.getD idx "")).join = none) :
    ∀ (rows : List (List String)) (r : Nat) (ws ws' : List Nat),
      (_get_size ((rows.getD r []).getD idx "")).1 ≤ (_get_size v').1 →
      WRel idx ws ws' →
      WRel idx (rows.foldl (fun ws row => rowFoldFrom t 0 ws row) ws)
        ((rows.set r ((rows.getD r []).set idx v')).foldl
          (fun ws row => rowFoldFrom t 0 ws row) ws') := by
  intro rows
  induction rows with
  | nil => exact fun r ws ws' _ h => h
  | cons row rest ih =>
    intro r ws ws' hsz h
    cases r with
    | zero =>
      rw [show (row :: rest).getD 0 [] = row from rfl, List.set]
      refine rowsFold_rel_same t idx rest _ _ ?_
      exact rowFoldFrom_set t idx v' hnf row idx 0 ws ws' (by omega) (by simpa using hsz) h
    | succ q =>
      rw [show (row :: rest).getD (q + 1) [] = rest.getD q [] from rfl, List.set]
      refine ih q _ _ (by simpa using hsz) ?_
      exact rowFoldFrom_rel_same t idx row 0 ws ws' h

/-- `WRel` between the seeded widths of the original rows and the rows
with cell `(r, idx)` replaced by a no-narrower value. -/
theorem pre_rel (t : Table κ) (options : Options κ) (rows : List (List String))
    (r idx : Nat) (v' : String)
    (hnf : (alGet t.none_format (t.field_names.getD idx "")).join = none)
    (hsz : (_get_size ((rows.getD r []).getD idx "")).1 ≤ (_get_size v').1) :
    WRel idx (_compute_widths_pre t options rows)
      (_compute_widths_pre t options (rows.set r ((rows.getD r []).set idx v'))) := by
  unfold _compute_widths_pre
  exact rowsFold_set t idx v' hnf rows r _ _ hsz (WRel_refl idx _)

/-- `WRel` in canonical form: either the changed column exists and the
primed list is a `set` of the original, or the lists are equal. -/
theorem WRel_canon (idx : Nat) (W W' : List Nat) (h : WRel idx W W') :
    (idx < W.length ∧ W' = W.set idx (W'.getD idx 0) ∧
      W.getD idx 0 ≤ W'.getD idx 0) ∨ W' = W := by
  obtain ⟨hlen, hne, hle⟩ := h
  by_cases hi : idx < W.length
  · refine Or.inl ⟨hi, ?_, hle⟩
    apply List.ext_getElem (by simp [List.length_set, hlen])
    intro j hj hj'
    by_cases hji : j = idx
    · subst hji
      rw [List.getElem_set_self (by omega)]
      rw [List.getD_eq_getElem _ _ hj]
    · rw [List.getElem_set_ne (fun hc => hji hc.symm)]
      have := hne j hji
      rw [List.getD_eq_getElem _ _ hj, List.getD_eq_getElem _ _ (by omega)] at this
      exact this.symm
  · refine Or.inr ?_
    apply List.ext_getElem (by omega)
    intro j hj hj'
    have hji : j ≠ idx := by omega
    have := hne j hji
    rw [List.getD_eq_getElem _ _ hj', List.getD_eq_getElem _ _ (by omega)] at this
    exact this.symm

/-- Sum after `set`, without `Nat` subtraction. -/
theorem sum_set_add (W : List Nat) :
    ∀ (idx w' : Nat), idx < W.length →
      (W.set idx w').sum + W.getD idx 0 = W.sum + w' := by
  induction W with
  | nil => intro idx w' h; simp at h
  | cons x xs ih =>
    intro idx w' h
    cases idx with
    | zero => simp [List.sum_cons]; omega
    | succ q =>
      have := ih q w' (by simpa using h)
      simp only [List.set, List.sum_cons]
      have hgd : (x :: xs).getD (q + 1) 0 = xs.getD q 0 := rfl
      rw [hgd]
      omega

theorem foldl_add_map {α : Type} (f : α → Nat) :
    ∀ (l : List α) (acc : Nat), l.foldl (fun a p => a + f p) acc = acc + (l.map f).sum := by
  intro l
  induction l with
  | nil => simp
  | cons x xs ih => intro acc; simp [ih]; omega

theorem sum_map_add_const {α : Type} (f : α → Nat) (c : Nat) :
    ∀ l : List α, (l.map (fun i => f i + c)).sum = (l.map f).sum + l.length * c := by
  intro l
  induction l with
  | nil => simp
  | cons x xs ih => simp [ih]; ring

theorem range_map_getD :
    ∀ W : List Nat, (List.range W.length).map (fun i => W.getD i 0) = W := by
  intro W
  induction W with
  | nil => simp
  | cons x xs ih =>
    show (List.range (xs.length + 1)).map (fun i => (x :: xs).getD i 0) = x :: xs
    rw [List.range_succ_eq_map, List.map_cons, List.map_map]
    have : ((fun i => (x :: xs).getD i 0) ∘ Nat.succ) = (fun i => xs.getD i 0) := by
      funext i; rfl
    rw [this, ih]
    rfl

/-- With every column displayed, the computed table width is the border
base plus the width sum plus per-column padding and separators: in
particular it exceeds `markup_chars` by exactly `base + sum + 1`. -/
theorem compute_table_width_eq (t : Table κ) (options : Options κ) (W : List Nat)
    (hf : options.fields = none) (hlen : W.length = t.field_names.length) :
    _compute_table_width t options W =
      (if options.vrules = VRuleStyle.ALL then 1 else 0) + W.sum +
        t.field_names.length *
          ((_get_padding_widths options).1 + (_get_padding_widths options).2 + 1) := by
  unfold _compute_table_width
  dsimp only
  have hsel : ∀ f : String, fieldSelected options.fields f = true := by
    intro f; rw [hf]; rfl
  have hstep : (fun (acc : Nat) (p : Nat × String) =>
      if fieldSelected options.fields p.2 then
        acc + W.getD p.1 0 + ((_get_padding_widths options).1 +
          (_get_padding_widths options).2) + 1
      else acc) =
      (fun (acc : Nat) (p : Nat × String) =>
        acc + (W.getD p.1 0 + ((_get_padding_widths options).1 +
          (_get_padding_widths options).2 + 1))) := by
    funext a p
    rw [hsel p.2]
    simp only [if_true]
    omega
  rw [hstep, foldl_add_map]
  have henum : (t.field_names.enum).map
      (fun p => W.getD p.1 0 + ((_get_padding_widths options).1 +
        (_get_padding_widths options).2 + 1)) =
      (List.range t.field_names.length).map
      (fun i => W.getD i 0 + ((_get_padding_widths options).1 +
        (_get_padding_widths options).2 + 1)) := by
    have h1 : (t.field_names.enum).map
        (fun p : Nat × String => W.getD p.1 0 + ((_get_padding_widths options).1 +
          (_get_padding_widths options).2 + 1)) =
        ((t.field_names.enum).map Prod.fst).map
        (fun i => W.getD i 0 + ((_get_padding_widths options).1 +
          (_get_padding_widths options).2 + 1)) := by
      rw [List.map_map]; rfl
    rw [h1, List.enum_map_fst]
  rw [henum, sum_map_add_const, ← hlen, range_map_getD]
  simp only [List.length_range]
  omega

theorem div_le_div_cross (a b c d : Nat) (hb : 0 < b) (hd : 0 < d)
    (h : a * d ≤ c * b) : a / b ≤ c / d := by
  rw [Nat.le_div_iff_mul_le hd]
  have h1 : a / b * d * b ≤ a * d := by
    calc a / b * d * b = a / b * b * d := by ring
      _ ≤ a * d := Nat.mul_le_mul_right d (Nat.div_mul_le_self a b)
  exact Nat.le_of_mul_le_mul_right (le_trans h1 h) hb

theorem getD_map_lt (l : List Nat) (f : Nat → Nat) (i : Nat) (hi : i < l.length) :
    (l.map f).getD i 0 = f (l.getD i 0) := by
  rw [List.getD_eq_getElem _ _ (by simpa using hi), List.getD_eq_getElem _ _ hi,
    List.getElem_map]

theorem getD_dropLast_append (l : List Nat) (y i : Nat) (hi : i + 1 < l.length) :
    (l.dropLast ++ [y]).getD i 0 = l.getD i 0 := by
  have hlen : i < l.dropLast.length := by simp [List.length_dropLast]; omega
  rw [List.getD_eq_getElem _ _ (by simp [List.length_dropLast]; omega),
    List.getElem_append_left hlen, List.getElem_dropLast,
    List.getD_eq_getElem _ _ (by omega)]

theorem getD_dropLast_append_last (l : List Nat) (y i : Nat) (hi : i + 1 = l.length) :
    (l.dropLast ++ [y]).getD i 0 = y := by
  have hlen : l.dropLast.length = i := by simp [List.length_dropLast]; omega
  rw [List.getD_eq_getElem _ _ (by simp [List.length_dropLast]; omega)]
  rw [List.getElem_append_right (by omega)]
  simp [hlen]

theorem sum_dropLast_add_last (l : List Nat) (i : Nat) (hi : i + 1 = l.length) :
    l.sum = l.dropLast.sum + l.getD i 0 := by
  conv_lhs => rw [← List.dropLast_append_getLast (l := l) (by intro hc; simp [hc] at hi)]
  rw [List.sum_append, List.sum_singleton]
  congr 1
  rw [List.getD_eq_getElem _ _ (by omega), List.getLast_eq_getElem]
  congr 1
  omega

theorem dropLast_set_last (l : List Nat) (x i : Nat) (hi : i + 1 = l.length) :
    (l.set i x).dropLast = l.dropLast := by
  apply List.ext_getElem (by simp [List.length_dropLast, List.length_set])
  intro j hj hj'
  rw [List.getElem_dropLast, List.getElem_dropLast, List.getElem_set_ne]
  intro hc
  subst hc
  simp [List.length_dropLast, List.length_set] at hj
  omega

theorem getD_eq_zero_of_sum_eq_zero (l : List Nat) (i : Nat) (h : l.sum = 0) :
    l.getD i 0 = 0 := by
  by_cases hi : i < l.length
  · rw [List.getD_eq_getElem _ _ hi]
    exact (List.sum_eq_zero_iff.mp h) _ (List.getElem_mem hi)
  · rw [List.getD_eq_default _ _ (by omega)]

theorem getD_le_sum (l : List Nat) (i : Nat) : l.getD i 0 ≤ l.sum := by
  by_cases hi : i < l.length
  · rw [List.getD_eq_getElem _ _ hi]
    exact List.single_le_sum (fun x _ => Nat.zero_le x) _ (List.getElem_mem hi)
  · rw [List.getD_eq_default _ _ (by omega)]
    exact Nat.zero_le _

/-- The seeding phase preserves the column count. -/
theorem pre_length (t : Table κ) (options : Options κ) (rows : List (List String)) :
    (_compute_widths_pre t options rows).length = t.field_names.length := by
  unfold _compute_widths_pre
  have hcell : ∀ (ws : List Nat) (k : Nat) (v : String),
      (_compute_widths_cell t ws k v).length = ws.length := by
    intro ws k v
    unfold _compute_widths_cell
    exact List.length_set ws k _
  have hrow : ∀ (row : List String) (n : Nat) (ws : List Nat),
      (rowFoldFrom t n ws row).length = ws.length := by
    intro row
    induction row with
    | nil => intro n ws; rfl
    | cons x xs ih =>
      intro n ws
      rw [rowFoldFrom_cons, ih, hcell]
  have hrows : ∀ (rs : List (List String)) (ws : List Nat),
      (rs.foldl (fun ws row => rowFoldFrom t 0 ws row) ws).length = ws.length := by
    intro rs
    induction rs with
    | nil => intro ws; rfl
    | cons row rest ih =>
      intro ws
      rw [List.foldl_cons, ih, hrow]
  rw [hrows]
  split_ifs <;> simp

/-- The grow phase at one column, when it fires: the proportionally
grown width, with the rounding shortfall folded into the last column as
a `max`. -/
theorem growWidths_getD_on (W : List Nat) (minw idx : Nat) (hi : idx < W.length)
    (hC : (if W.sum = 0 then 1 else W.sum) < minw) :
    (growWidths W minw).getD idx 0 =
      (if idx + 1 = W.length then
        max ((W.map (fun w => w * minw / (if W.sum = 0 then 1 else W.sum))).getD idx 0)
          (minw -
            (W.map (fun w => w * minw /
              (if W.sum = 0 then 1 else W.sum))).dropLast.sum)
      else
        (W.map (fun w => w * minw / (if W.sum = 0 then 1 else W.sum))).getD idx 0) := by
  unfold growWidths
  rw [if_pos hC]
  dsimp only
  set C1 := if W.sum = 0 then 1 else W.sum with hC1
  set gs := W.map (fun w => w * minw / C1) with hgs
  have hgslen : gs.length = W.length := by rw [hgs]; exact List.length_map W _
  have hgsne : gs ≠ [] := by
    intro hc
    rw [hc] at hgslen
    simp at hgslen
    omega
  rw [List.getLast?_eq_getLast gs hgsne]
  have hlast_getD : gs.getLast hgsne = gs.getD (W.length - 1) 0 := by
    rw [List.getLast_eq_getElem, List.getD_eq_getElem _ _ (by omega)]
    congr 1
    omega
  by_cases hfix : gs.sum < minw
  · rw [if_pos hfix]
    by_cases hl : idx + 1 = W.length
    · rw [if_pos hl, getD_dropLast_append_last gs _ idx (by omega)]
      have hsum := sum_dropLast_add_last gs idx (by omega)
      have hgl : gs.getLast hgsne = gs.getD idx 0 := by
        rw [hlast_getD]
        congr 1
        omega
      rw [hgl, Nat.max_def]
      split_ifs with hcmp <;> omega
    · rw [if_neg hl, getD_dropLast_append gs _ idx (by omega)]
  · rw [if_neg hfix]
    by_cases hl : idx + 1 = W.length
    · rw [if_pos hl]
      have hsum := sum_dropLast_add_last gs idx (by omega)
      rw [Nat.max_eq_left (by omega)]
    · rw [if_neg hl]

/-- If the grow phase does not fire, it is the identity. -/
theorem growWidths_off (W : List Nat) (minw : Nat)
    (hC : ¬ (if W.sum = 0 then 1 else W.sum) < minw) :
    growWidths W minw = W := by
  unfold growWidths
  rw [if_neg hC]

/-- The effective content width never shrinks when one entry grows. -/
theorem content_mono (W : List Nat) (idx w' : Nat) (hi : idx < W.length)
    (hw : W.getD idx 0 ≤ w') :
    (if W.sum = 0 then 1 else W.sum) ≤
      (if (W.set idx w').sum = 0 then 1 else (W.set idx w').sum) ∧
    (W.set idx w').sum + W.getD idx 0 = W.sum + w' := by
  have hsum := sum_set_add W idx w' hi
  constructor
  · split_ifs <;> omega
  · exact hsum

/-- Monotonicity of the grow phase at the grown column. -/
theorem growWidths_mono (W : List Nat) (minw idx w' : Nat)
    (hi : idx < W.length) (hw : W.getD idx 0 ≤ w') :
    (growWidths W minw).getD idx 0 ≤ (growWidths (W.set idx w') minw).getD idx 0 := by
  set w := W.getD idx 0 with hwdef
  set Wp := W.set idx w' with hWp
  have hlenp : Wp.length = W.length := by rw [hWp]; exact List.length_set W idx w'
  have hip : idx < Wp.length := by omega
  have hgetp : Wp.getD idx 0 = w' := by rw [hWp]; exact getD_set_self W idx w' hi
  obtain ⟨hCmono, hsum⟩ := content_mono W idx w' hi hw
  rw [← hWp] at hCmono hsum
  rw [← hwdef] at hsum
  set C1 := if W.sum = 0 then 1 else W.sum with hC1
  set C1p := if Wp.sum = 0 then 1 else Wp.sum with hC1p
  have hC1pos : 1 ≤ C1 := by rw [hC1]; split_ifs <;> omega
  by_cases hC : C1 < minw
  · by_cases hCp : C1p < minw
    · -- both fire
      rw [growWidths_getD_on W minw idx hi (by rw [← hC1]; exact hC),
        growWidths_getD_on Wp minw idx hip (by rw [← hC1p]; exact hCp)]
      rw [← hC1, ← hC1p]
      have hfmono : (W.map (fun v => v * minw / C1)).getD idx 0 ≤
          (Wp.map (fun v => v * minw / C1p)).getD idx 0 := by
        rw [getD_map_lt _ _ _ hi, getD_map_lt _ _ _ hip, hgetp, ← hwdef]
        by_cases hS : W.sum = 0
        · have hw0 : w = 0 := by rw [hwdef]; exact getD_eq_zero_of_sum_eq_zero W idx hS
          simp [hw0]
        · have hC1S : C1 = W.sum := by rw [hC1, if_neg hS]
          have hC1pS : C1p = Wp.sum := by
            rw [hC1p, if_neg (by omega)]
          have hwS : w ≤ W.sum := by rw [hwdef]; exact getD_le_sum W idx
          apply div_le_div_cross _ _ _ _ (by omega) (by omega)
          have hkey : w * C1p ≤ w' * C1 := by
            rw [hC1S, hC1pS]
            calc w * Wp.sum = w * W.sum + w * (w' - w) := by
                  have : Wp.sum = W.sum + (w' - w) := by omega
                  rw [this]; ring
              _ ≤ w * W.sum + W.sum * (w' - w) :=
                  Nat.add_le_add_left (Nat.mul_le_mul_right _ hwS) _
              _ = (w + (w' - w)) * W.sum := by ring
              _ = w' * W.sum := by congr 1; omega
          calc w * minw * C1p = minw * (w * C1p) := by ring
            _ ≤ minw * (w' * C1) := Nat.mul_le_mul_left minw hkey
            _ = w' * minw * C1 := by ring
      by_cases hl : idx + 1 = W.length
      · rw [if_pos hl, if_pos (by omega)]
        refine sup_le_sup hfmono (Nat.sub_le_sub_left ?_ minw)
        -- the other columns' grown widths only shrink
        have hdrop : (Wp.map (fun v => v * minw / C1p)).dropLast =
            W.dropLast.map (fun v => v * minw / C1p) := by
          rw [hWp, List.map_set,
            dropLast_set_last _ _ idx (by rw [List.length_map]; exact hl),
            List.map_dropLast]
        have hdrop0 : (W.map (fun v => v * minw / C1)).dropLast =
            W.dropLast.map (fun v => v * minw / C1) := (List.map_dropLast _ _).symm
        rw [hdrop, hdrop0]
        apply List.sum_le_sum
        intro x _
        exact Nat.div_le_div_left hCmono (by omega)
      · rw [if_neg hl, if_neg (by omega)]
        exact hfmono
    · -- fires only on the smaller side: bound the grown width by `w'`
      rw [growWidths_off Wp minw (by rw [← hC1p]; exact hCp), hgetp,
        growWidths_getD_on W minw idx hi (by rw [← hC1]; exact hC), ← hC1]
      have hminwC1p : minw ≤ C1p := by omega
      have hfle : (W.map (fun v => v * minw / C1)).getD idx 0 ≤ w' := by
        rw [getD_map_lt _ _ _ hi, ← hwdef]
        by_cases hS : W.sum = 0
        · have hw0 : w = 0 := by rw [hwdef]; exact getD_eq_zero_of_sum_eq_zero W idx hS
          simp [hw0]
        · have hC1S : C1 = W.sum := by rw [hC1, if_neg hS]
          have hC1pS : C1p = Wp.sum := by rw [hC1p, if_neg (by omega)]
          have hwS : w ≤ W.sum := by rw [hwdef]; exact getD_le_sum W idx
          have hnum : w * minw ≤ w' * C1 := by
            rw [hC1S]
            calc w * minw ≤ w * C1p := Nat.mul_le_mul_left w hminwC1p
              _ = w * Wp.sum := by rw [hC1pS]
              _ = w * W.sum + w * (w' - w) := by
                  have : Wp.sum = W.sum + (w' - w) := by omega
                  rw [this]; ring
              _ ≤ w * W.sum + W.sum * (w' - w) :=
                  Nat.add_le_add_left (Nat.mul_le_mul_right _ hwS) _
              _ = (w + (w' - w)) * W.sum := by ring
              _ = w' * W.sum := by congr 1; omega
          calc w * minw / C1 ≤ w' * C1 / C1 := Nat.div_le_div_right hnum
            _ = w' := Nat.mul_div_cancel w' (by omega)
      by_cases hl : idx + 1 = W.length
      · rw [if_pos hl]
        refine max_le hfle ?_
        by_cases hS : W.sum = 0
        · -- all entries are zero: `minw ≤ C1p = w'`
          have hne : Wp.sum ≠ 0 := by
            intro hc
            rw [hC1p, if_pos hc] at hminwC1p
            rw [hC1, if_pos hS] at hC
            omega
          have hC1pS : C1p = Wp.sum := by rw [hC1p, if_neg hne]
          have hw0 : w = 0 := by rw [hwdef]; exact getD_eq_zero_of_sum_eq_zero W idx hS
          have h1 : Wp.sum = w' := by omega
          have h2 : minw ≤ w' := by omega
          omega
        · have hC1S : C1 = W.sum := by rw [hC1, if_neg hS]
          have hC1pS : C1p = Wp.sum := by rw [hC1p, if_neg (by omega)]
          have hdropge : W.dropLast.sum ≤
              (W.map (fun v => v * minw / C1)).dropLast.sum := by
            rw [← List.map_dropLast]
            have hpt : ∀ x : Nat, x ≤ x * minw / C1 := by
              intro x
              exact (Nat.le_div_iff_mul_le (by omega)).mpr
                (Nat.mul_le_mul_left x (by omega))
            induction W.dropLast with
            | nil => simp
            | cons a t ih =>
                simp only [List.map_cons, List.sum_cons]
                exact Nat.add_le_add (hpt a) ih
          have hWsum := sum_dropLast_add_last W idx (by omega)
          rw [← hwdef] at hWsum
          omega
      · rw [if_neg hl]
        exact hfle
  · -- does not fire on the smaller side, hence on neither
    have hCp : ¬ C1p < minw := by omega
    rw [growWidths_off W minw (by rw [← hC1]; exact hC),
      growWidths_off Wp minw (by rw [← hC1p]; exact hCp), hgetp, ← hwdef]
    exact hw

/-- The cross-multiplied core of the shrink-phase comparisons: growing
the cell by `δ = w2 - w` grows the scaling denominator by the same `δ`,
and `w ≤ B` keeps the product ordered. -/
theorem shrink_key (w w2 B B2 Mm : Nat) (hw : w ≤ w2) (hwB : w ≤ B)
    (hBB2 : B2 + w = B + w2) (hBM : B ≤ Mm) : w * B2 ≤ w2 * Mm := by
  have hB2 : B2 = B + (w2 - w) := by omega
  have hw2 : w2 = w + (w2 - w) := by omega
  calc w * B2 = w * B + w * (w2 - w) := by rw [hB2]; ring
    _ ≤ w * B + B * (w2 - w) := Nat.add_le_add_left (Nat.mul_le_mul_right _ hwB) _
    _ = (w + (w2 - w)) * B := by ring
    _ = w2 * B := by rw [← hw2]
    _ ≤ w2 * Mm := Nat.mul_le_mul_left w2 hBM

/-- A pre-shrink width is at most the shrunk width of the grown cell
when the cross products are ordered against `max_table_width`. -/
theorem le_shrunkWidth (M m T2 w w2 : Nat) (hT2 : m < T2)
    (hkey : w * (T2 - m) ≤ w2 * (M - m)) : w ≤ shrunkWidth M m T2 w2 := by
  unfold shrunkWidth
  refine le_trans ?_ (le_max_right 1 _)
  rw [Nat.le_div_iff_mul_le (by omega)]
  exact hkey

/-- Monotonicity of the shrunk width in the cell width and the table
width together, under the cross-product ordering. -/
theorem shrunkWidth_mono_T (M m T T2 w w2 : Nat) (hmT : m < T) (hTT2 : T ≤ T2)
    (hkey : w * (T2 - m) ≤ w2 * (T - m)) :
    shrunkWidth M m T w ≤ shrunkWidth M m T2 w2 := by
  unfold shrunkWidth
  refine sup_le_sup (le_refl 1) ?_
  apply div_le_div_cross _ _ _ _ (by omega) (by omega)
  calc w * (M - m) * (T2 - m) = (M - m) * (w * (T2 - m)) := by ring
    _ ≤ (M - m) * (w2 * (T - m)) := Nat.mul_le_mul_left _ hkey
    _ = w2 * (M - m) * (T - m) := by ring

/-- Monotonicity of the rescaling phases of `_compute_widths` at the
grown column, with every column displayed and at most one phase armed:
either `max_table_width` is falsy (only the grow phase can fire), or
`min_table_width` and the title are both falsy (only the shrink phase
can fire). -/
theorem compute_widths_from_mono {κ : Type} (t : Table κ) (options : Options κ)
    (W : List Nat) (idx w' : Nat)
    (hf : options.fields = none)
    (hlen : W.length = t.field_names.length)
    (hi : idx < W.length)
    (hw : W.getD idx 0 ≤ w')
    (hphase : truthyNat t.max_table_width = false ∨
      (truthyNat t.min_table_width = false ∧ truthyStr options.title = false)) :
    (_compute_widths_from t options W).getD idx 0 ≤
      (_compute_widths_from t options (W.set idx w')).getD idx 0 := by
  have hsum := sum_set_add W idx w' hi
  have hwsum : W.getD idx 0 ≤ W.sum := getD_le_sum W idx
  have hip : idx < (W.set idx w').length := by rw [List.length_set]; exact hi
  unfold _compute_widths_from
  dsimp only
  simp only [List.length_set]
  rcases hphase with hmax | ⟨hmin, htitle⟩
  · simp only [hmax, Bool.false_eq_true, if_false]
    by_cases houter : truthyNat t.min_table_width = true ∨ truthyStr options.title = true
    · rw [if_pos houter, if_pos houter]
      have hcoll : ∀ (V : List Nat) (mw : Nat),
          (if (if V.sum = 0 then 1 else V.sum) < mw then growWidths V mw else V) =
            growWidths V mw := by
        intro V mw
        by_cases h : (if V.sum = 0 then 1 else V.sum) < mw
        · rw [if_pos h]
        · rw [if_neg h, growWidths_off V mw h]
      rw [hcoll, hcoll]
      exact growWidths_mono W _ idx w' hi hw
    · rw [if_neg houter, if_neg houter, getD_set_self W idx w' hi]
      exact hw
  · simp only [hmin, htitle, Bool.false_eq_true, or_self, if_false]
    by_cases hmaxon : truthyNat t.max_table_width = true
    · rw [if_pos hmaxon, if_pos hmaxon]
      set M := t.max_table_width.getD 0 with hM
      set pcp := (_get_padding_widths options).1 + (_get_padding_widths options).2
        with hpcp
      set T := _compute_table_width t options W with hT0
      set T' := _compute_table_width t options (W.set idx w') with hT0'
      have hT := compute_table_width_eq t options W hf hlen
      have hT' := compute_table_width_eq t options (W.set idx w') hf
        (by rw [List.length_set]; exact hlen)
      rw [← hT0, ← hpcp] at hT
      rw [← hT0', ← hpcp] at hT'
      rw [hlen]
      have hdist : t.field_names.length * (pcp + 1) =
          pcp * t.field_names.length + t.field_names.length := by ring
      have hnf1 : 1 ≤ t.field_names.length := by omega
      by_cases hTM : T > M
      · by_cases hT'M : T' > M
        · rw [if_pos hTM, if_pos hT'M, getD_map_lt _ _ _ hi, getD_map_lt _ _ _ hip,
            getD_set_self W idx w' hi]
          exact shrunkWidth_mono_T M _ T T' _ w' (by omega) (by omega)
            (shrink_key _ w' (T - (pcp * t.field_names.length + t.field_names.length - 1))
              (T' - (pcp * t.field_names.length + t.field_names.length - 1)) _
              hw (by omega) (by omega) (le_refl _))
        · exact absurd (show T' > M by omega) hT'M
      · by_cases hT'M : T' > M
        · rw [if_neg hTM, if_pos hT'M, getD_map_lt _ _ _ hip, getD_set_self W idx w' hi]
          exact le_shrunkWidth M _ T' _ w' (by omega)
            (shrink_key _ w' (T - (pcp * t.field_names.length + t.field_names.length - 1))
              (T' - (pcp * t.field_names.length + t.field_names.length - 1))
              (M - (pcp * t.field_names.length + t.field_names.length - 1))
              hw (by omega) (by omega) (by omega))
        · rw [if_neg hTM, if_neg hT'M, getD_set_self W idx w' hi]
          exact hw
    · rw [if_neg hmaxon, if_neg hmaxon, getD_set_self W idx w' hi]
      exact hw

/-- A one-column table holding a 20-character cell, with
`min_table_width = 30` and `max_table_width = 10`: both rescaling
phases of `_compute_widths` are armed. -/
def t7table : Table (List Val) :=
  let t0 := PrettyTable_new ["A"]
  let t1 := (add_row t0 [Val.s (String.mk (List.replicate 20 'a'))] false).1
  {t1 with min_table_width := some 30, max_table_width := some 10}

/-- C7 counterexample: with `min_table_width = 30` and
`max_table_width = 10` armed together, lengthening the single cell from
20 to 27 characters flips the applied rescaling from the grow phase
(width 26) to the shrink phase (width 7): the computed column width
decreases although the cell's display width increased and everything
else is unchanged. -/
theorem C7_counterexample :
    (_get_size (((_format_rows t7table
        (_get_rows t7table (getOptions t7table))).getD 0 []).getD 0 "")).1 ≤
      (_get_size (String.mk (List.replicate 27 'a'))).1 ∧
    _compute_widths t7table (getOptions t7table)
      (_format_rows t7table (_get_rows t7table (getOptions t7table))) = [26] ∧
    _compute_widths t7table (getOptions t7table)
      ((_format_rows t7table (_get_rows t7table (getOptions t7table))).set 0
        (((_format_rows t7table (_get_rows t7table (getOptions t7table))).getD 0 []).set 0
          (String.mk (List.replicate 27 'a')))) = [7] ∧
    ¬ ((_compute_widths t7table (getOptions t7table)
        (_format_rows t7table (_get_rows t7table (getOptions t7table)))).getD 0 0 ≤
      (_compute_widths t7table (getOptions t7table)
        ((_format_rows t7table (_get_rows t7table (getOptions t7table))).set 0
          (((_format_rows t7table
              (_get_rows t7table (getOptions t7table))).getD 0 []).set 0
            (String.mk (List.replicate 27 'a'))))).getD 0 0) := by
  refine ⟨by decide, by decide, by decide, by decide⟩

/-- C7 (amended): replacing one cell's formatted string by one of
greater or equal display width never decreases that cell's column's
computed width, provided every column is displayed (`fields` unset), no
`none_format` replacement is configured for the column, and at most one
rescaling phase is armed — `max_table_width` falsy, or
`min_table_width` and the title both falsy. (With both phases armed
the property fails; see the counterexample.) -/
theorem C7_cell_width_monotone {κ : Type} (t : Table κ) (options : Options κ)
    (rows : List (List String)) (r idx : Nat) (v' : String)
    (hf : options.fields = none)
    (hnf : (alGet t.none_format (t.field_names.getD idx "")).join = none)
    (hsz : (_get_size ((rows.getD r []).getD idx "")).1 ≤ (_get_size v').1)
    (hphase : truthyNat t.max_table_width = false ∨
      (truthyNat t.min_table_width = false ∧ truthyStr options.title = false)) :
    (_compute_widths t options rows).getD idx 0 ≤
      (_compute_widths t options (rows.set r ((rows.getD r []).set idx v'))).getD idx 0 := by
  unfold _compute_widths
  have hrel := pre_rel t options rows r idx v' hnf hsz
  rcases WRel_canon idx _ _ hrel with ⟨hi, hW', hle⟩ | hEq
  · rw [hW']
    exact compute_widths_from_mono t options _ idx _ hf (pre_length t options rows)
      hi hle hphase
  · rw [hEq]

/-- Witness for `C7_cell_width_monotone`: widening the first cell of the
end-to-end scenario table from `"1"` to `"10"` (no width constraints at
all, so neither phase is armed). -/
theorem C7_cell_width_monotone_witness :
    (getOptions c1table).fields = none ∧
    (alGet c1table.none_format (c1table.field_names.getD 0 "")).join = none ∧
    (_get_size (((_format_rows c1table
        (_get_rows c1table (getOptions c1table))).getD 0 []).getD 0 "")).1 ≤
      (_get_size "10").1 ∧
    truthyNat c1table.max_table_width = false ∧
    (_compute_widths c1table (getOptions c1table)
        (_format_rows c1table (_get_rows c1table (getOptions c1table)))).getD 0 0 ≤
      (_compute_widths c1table (getOptions c1table)
        ((_format_rows c1table (_get_rows c1table (getOptions c1table))).set 0
          (((_format_rows c1table
              (_get_rows c1table (getOptions c1table))).getD 0 []).set 0 "10"))).getD 0 0 :=
  ⟨by decide, by decide, by decide, by decide,
    C7_cell_width_monotone c1table (getOptions c1table)
      (_format_rows c1table (_get_rows c1table (getOptions c1table))) 0 0 "10"
      (by decide) (by decide) (by decide) (Or.inl (by decide))⟩

end Prettytable
